import Mathlib

/-!
# A verification development for `jpeg.c`

`jpeg.c` converts between JPEG data and a row-major bitmap of normalised
`float` samples, delegating the JPEG bitstream work to libjpeg.  This file
embeds the C functions of `jpeg.c` in Lean and proves properties of them.

Conventions of the embedding:

* `int` is a 32-bit two's complement integer (`wrap_int`), `size_t` is an
  unsigned integer of `sz` bits (`sz` is a parameter, 32 on the ARM target and
  64 on LP64 hosts), `uint8_t` is `Fin 256`.
* `float` is IEEE-754 binary32 with round-to-nearest, ties-to-even (`F32`).
* A pointer to a heap block is `Option (List α)`: `none` is `NULL`.  A load or
  store outside the block (or through `NULL`) is undefined behaviour, which the
  embedding reports as the outcome `none`.
* libjpeg and the operating system are external; their observable behaviour is
  a parameter (`Decoder`, `Encoder`, the `read` and `write` schedules).
-/

set_option exponentiation.threshold 2048

/-! ## Machine integers -/

/-- The C type `uint8_t`. -/
abbrev uint8_t : Type := Fin 256

/-- Reduction of a mathematical integer to the range of the C type `int`
(32 bits, two's complement). -/
def wrap_int (x : Int) : Int := (x + 2147483648) % 4294967296 - 2147483648

/-- Multiplication of two `int` values, as the hardware performs it. -/
def int_mul (a b : Int) : Int := wrap_int (a * b)

/-- Conversion of an `int` to `size_t` (an unsigned type of `sz` bits). -/
def size_t_of_int (sz : Nat) (x : Int) : Nat := (x % (2 : Int) ^ sz).toNat

/-- Conversion of an `unsigned int` (libjpeg's `JDIMENSION`) to `int`. -/
def int_of_uint (u : Nat) : Int := wrap_int (u : Int)

/-- Conversion of an `int` to `unsigned int` (libjpeg's `JDIMENSION`). -/
def uint_of_int (x : Int) : Nat := (x % 4294967296).toNat

/-! ## Heap blocks -/

/-- The C library function `calloc (nmemb, size)`: the request fails (returns
`NULL`) when the byte count does not fit in `size_t`; otherwise it yields a block
of `nmemb` zeroed elements.  Exhaustion of physical memory is not modelled. -/
def calloc {α : Type} (sz : Nat) (zero : α) (nmemb size : Nat) : Option (List α) :=
  if nmemb * size < 2 ^ sz then some (List.replicate nmemb zero) else none

/-- Load of element `i` through pointer `p`; `none` is undefined behaviour. -/
def load {α : Type} (p : Option (List α)) (i : Nat) : Option α :=
  match p with
  | none => none
  | some m => m[i]?

/-- Store of `v` into element `i` through pointer `p`; `none` is undefined
behaviour, otherwise the pointer to the updated block is returned. -/
def store {α : Type} (p : Option (List α)) (i : Nat) (v : α) : Option (Option (List α)) :=
  match p with
  | none => none
  | some m => if i < m.length then some (some (m.set i v)) else none

/-! ## IEEE-754 binary32 -/

/-- The C type `float`: sign bit, 8-bit biased exponent, 23-bit fraction. -/
structure F32 where
  sign : Bool
  exp : Fin 256
  man : Fin 8388608
deriving DecidableEq

namespace F32

/-- The magnitude of the smallest positive `float` is `2 ^ (-149)`; every finite
`float` is an integer multiple of it.  `UNIT` is the number `1.0` in that unit. -/
def UNIT : Nat := 2 ^ 149

/-- Magnitude of a finite `float`, in units of `2 ^ (-149)`. -/
def mag (x : F32) : Nat :=
  if x.exp.val = 0 then x.man.val else (8388608 + x.man.val) * 2 ^ (x.exp.val - 1)

/-- Whether the datum is a NaN. -/
def isNaN (x : F32) : Bool := x.exp.val = 255 && x.man.val != 0

/-- Whether the datum is an infinity. -/
def isInf (x : F32) : Bool := x.exp.val = 255 && x.man.val == 0

/-- Whether the datum is a finite number. -/
def isFinite (x : F32) : Bool := x.exp.val != 255

/-- The default quiet NaN. -/
def nan : F32 := ⟨false, 255, 4194304⟩

/-- Infinity with the given sign. -/
def inf (s : Bool) : F32 := ⟨s, 255, 0⟩

/-- Zero with the given sign. -/
def zero (s : Bool) : F32 := ⟨s, 0, 0⟩

/-- Bit length by repeated halving, `fuel` steps at most. -/
def bitLenAux : Nat → Nat → Nat
  | 0, _ => 0
  | fuel + 1, n => if n = 0 then 0 else bitLenAux fuel (n / 2) + 1

/-- Bit length of a number below `2 ^ (2 ^ k)`, by bisection. -/
def bitLenBis : Nat → Nat → Nat
  | 0, n => if n = 0 then 0 else 1
  | k + 1, n =>
    if n < 2 ^ (2 ^ k) then bitLenBis k n else 2 ^ k + bitLenBis k (n / 2 ^ (2 ^ k))

/-- Number of binary digits of `n`. -/
def bitLen (n : Nat) : Nat :=
  if n < 2 ^ 1024 then bitLenBis 10 n else bitLenAux n n

/-- Spacing of the binary32 grid around the magnitude `n` (in units of
`2 ^ (-149)`): 1 up to `2 ^ 24`, then doubling with every binade. -/
def ulp (n : Nat) : Nat := 2 ^ (bitLen n - 24)

/-- Rounding of the non-negative rational `p / q` (in units of `2 ^ (-149)`) to
the binary32 grid, to nearest, ties to the even significand. -/
def rne (p q : Nat) : Nat :=
  let u := ulp (p / q)
  let d := q * u
  let m := p / d
  let r := p % d
  if 2 * r < d then m * u
  else if d < 2 * r then (m + 1) * u
  else if m % 2 = 0 then m * u else (m + 1) * u

/-- Encoding of a magnitude on the binary32 grid (below `2 ^ 128`). -/
def pack (s : Bool) (n : Nat) : F32 :=
  if n < 8388608 then ⟨s, 0, Fin.ofNat n⟩
  else ⟨s, Fin.ofNat (bitLen n - 23), Fin.ofNat (n / 2 ^ (bitLen n - 24))⟩

/-- The `float` nearest to `± p / q` units; overflow gives an infinity. -/
def round (s : Bool) (p q : Nat) : F32 :=
  if 2 ^ 277 ≤ rne p q then inf s else pack s (rne p q)

/-- The C operator `*` on `float`. -/
def mul (a b : F32) : F32 :=
  if a.isNaN || b.isNaN then nan
  else if a.isInf || b.isInf then
    (if a.mag = 0 || b.mag = 0 then nan else inf (xor a.sign b.sign))
  else round (xor a.sign b.sign) (a.mag * b.mag) UNIT

/-- The C operator `/` on `float`. -/
def div (a b : F32) : F32 :=
  if a.isNaN || b.isNaN then nan
  else if a.isInf then (if b.isInf then nan else inf (xor a.sign b.sign))
  else if b.isInf then zero (xor a.sign b.sign)
  else if b.mag = 0 then (if a.mag = 0 then nan else inf (xor a.sign b.sign))
  else round (xor a.sign b.sign) (a.mag * UNIT) b.mag

/-- Conversion of a non-negative integer to `float`, as in `(float) bufs[i][j]`
and in the literals `1.0f`, `255.0f`. -/
def ofNat (n : Nat) : F32 := round false (n * UNIT) 1

/-- Truncation toward zero of a finite `float`. -/
def trunc (x : F32) : Int :=
  if x.sign then -((x.mag / UNIT : Nat) : Int) else ((x.mag / UNIT : Nat) : Int)

/-- The C conversion `(uint8_t) x`.  The conversion is defined by the C standard
when the truncated value lies in 0..255; outside that range the embedding
reduces the truncated value modulo 256. -/
def toUInt8 (x : F32) : uint8_t := Fin.ofNat (x.trunc % 256).toNat

/-- The rational number denoted by a finite `float`. -/
def toRat (x : F32) : ℚ :=
  (if x.sign then -1 else 1) * ((x.mag : ℚ) / 2 ^ 149)

end F32

/-! ## The external JPEG codec, decoding side -/

/-- The fields of libjpeg's `struct jpeg_decompress_struct` that `jpeg.c` reads. -/
structure jpeg_decompress_struct where
  data_precision : Int
  output_components : Int
  output_width : Nat
  output_height : Nat
  output_scanline : Nat

/-- What libjpeg does with one input buffer, as far as `jpeg.c` can observe:
the value returned by `jpeg_read_header`, the format the session reports after
`jpeg_start_decompress`, and the samples that the `k`-th call of
`jpeg_read_scanlines` (counted from 0) delivers. -/
structure Decoder where
  read_header : Int
  data_precision : Int
  output_components : Int
  output_width : Nat
  output_height : Nat
  scanline : Nat → List uint8_t

/-- The constant `JPEG_HEADER_OK` of `jpeglib.h`. -/
def JPEG_HEADER_OK : Int := 1

/-- The session after `jpeg_start_decompress`: the dimensions are `JDIMENSION`
(32-bit unsigned) values and no scanline has been delivered yet. -/
def jpeg_start_decompress (d : Decoder) : jpeg_decompress_struct :=
  { data_precision := d.data_precision
    output_components := d.output_components
    output_width := d.output_width % 4294967296
    output_height := d.output_height % 4294967296
    output_scanline := 0 }

/-- Deposit of a delivered scanline at the start of a row buffer; the library
writes no further than the end of the buffer. -/
def overlay (row buf : List uint8_t) : List uint8_t :=
  row.take buf.length ++ buf.drop row.length

/-- The call `jpeg_read_scanlines (&cinfo, bufs, 1)` with a memory source, which
never suspends: one scanline is written to `bufs[0]` and `output_scanline`
advances by one. -/
def jpeg_read_scanlines (d : Decoder) (cinfo : jpeg_decompress_struct)
    (buf : Option (List uint8_t)) : jpeg_decompress_struct × Option (List uint8_t) :=
  ({ cinfo with output_scanline := cinfo.output_scanline + 1 },
   buf.map (overlay (d.scanline cinfo.output_scanline)))

/-! ## `to_float` -/

/-- The constant `factor` of `to_float`, `1.0f/255.0f`. -/
def to_float_factor : F32 := F32.div (F32.ofNat 1) (F32.ofNat 255)

/-- The expression `((float) s) * factor` of `to_float`. -/
def sample_to_float (s : uint8_t) : F32 := F32.mul (F32.ofNat s.val) to_float_factor

/-- The inner loop of `to_float`, `for (j = 0; j < output_width; j++) *out++ = ...`,
with `n` iterations left, reading `row[j]` and writing `bitmap[out]`. -/
def to_float_row (row : Option (List uint8_t)) :
    Nat → Nat → Nat → Option (List F32) → Option (Option (List F32) × Nat)
  | 0, _, out, bitmap => some (bitmap, out)
  | n + 1, j, out, bitmap =>
    match load row j with
    | none => none
    | some s =>
      match store bitmap out (sample_to_float s) with
      | none => none
      | some bitmap1 => to_float_row row n (j + 1) (out + 1) bitmap1

/-- The outer loop of `to_float`, `for (i = 0; i < nbufs; i++)`, with `n`
iterations left. -/
def to_float_bufs (width : Nat) (bufs : List (Option (List uint8_t))) :
    Nat → Nat → Nat → Option (List F32) → Option (Option (List F32) × Nat)
  | 0, _, out, bitmap => some (bitmap, out)
  | n + 1, i, out, bitmap =>
    match bufs[i]? with
    | none => none
    | some row =>
      match to_float_row row width 0 out bitmap with
      | none => none
      | some (bitmap1, out1) => to_float_bufs width bufs n (i + 1) out1 bitmap1

/-- The function `to_float`: the returned pair is the `bool` result and the
bitmap after the call; `none` is undefined behaviour (an access outside a
block). -/
def to_float (cinfo : jpeg_decompress_struct) (bufs : List (Option (List uint8_t)))
    (nbufs : Nat) (bitmap : Option (List F32)) (line : Nat) :
    Option (Bool × Option (List F32)) :=
  if cinfo.data_precision ≠ 8 ∨ cinfo.output_components ≠ 1 then some (false, bitmap)
  else
    match to_float_bufs cinfo.output_width bufs nbufs 0 (line * cinfo.output_width) bitmap with
    | none => none
    | some (bitmap1, _) => some (true, bitmap1)

/-! ## `from_float` -/

/-- The fields of libjpeg's `struct jpeg_compress_struct` that `jpeg.c` uses. -/
structure jpeg_compress_struct where
  image_width : Nat
  image_height : Nat
  input_components : Int
  data_precision : Int

/-- The constant `factor` of `from_float`, `255.0f`. -/
def from_float_factor : F32 := F32.ofNat 255

/-- The expression `(uint8_t) (x * factor)` of `from_float`. -/
def float_to_sample (x : F32) : uint8_t := F32.toUInt8 (F32.mul x from_float_factor)

/-- The inner loop of `from_float`, `for (j = 0; j < image_width; j++)
bufs[i][j] = ... *in++ ...`, with `n` iterations left. -/
def from_float_row (bitmap : Option (List F32)) :
    Nat → Nat → Nat → Option (List uint8_t) → Option (Option (List uint8_t) × Nat)
  | 0, _, inp, row => some (row, inp)
  | n + 1, j, inp, row =>
    match load bitmap inp with
    | none => none
    | some x =>
      match store row j (float_to_sample x) with
      | none => none
      | some row1 => from_float_row bitmap n (j + 1) (inp + 1) row1

/-- The outer loop of `from_float`, `for (i = 0; i < nbufs; i++)`, with `n`
iterations left. -/
def from_float_bufs (width : Nat) (bitmap : Option (List F32)) :
    Nat → Nat → Nat → List (Option (List uint8_t)) →
      Option (List (Option (List uint8_t)) × Nat)
  | 0, _, inp, bufs => some (bufs, inp)
  | n + 1, i, inp, bufs =>
    match bufs[i]? with
    | none => none
    | some row =>
      match from_float_row bitmap width 0 inp row with
      | none => none
      | some (row1, inp1) => from_float_bufs width bitmap n (i + 1) inp1 (bufs.set i row1)

/-- The function `from_float`: the returned pair is the `bool` result and the
row buffers after the call; `none` is undefined behaviour. -/
def from_float (cinfo : jpeg_compress_struct) (bufs : List (Option (List uint8_t)))
    (nbufs : Nat) (bitmap : Option (List F32)) (line : Nat) :
    Option (Bool × List (Option (List uint8_t))) :=
  if cinfo.data_precision ≠ 8 ∨ cinfo.input_components ≠ 1 then some (false, bufs)
  else
    match from_float_bufs cinfo.image_width bitmap nbufs 0 (line * cinfo.image_width) bufs with
    | none => none
    | some (bufs1, _) => some (true, bufs1)

/-! ## `jpeg_to_grayscale` -/

/-- Calls that acquire or release a resource, in the order they are made. -/
inductive Event
  | create_decompress
  | start_decompress
  | finish_decompress
  | destroy_decompress
  | calloc_bitmap
  | calloc_buf
  | free_buf
  | free_bitmap
deriving DecidableEq

/-- What a call of `jpeg_to_grayscale` leaves behind: the returned pointer
(`none` is `NULL`), the values stored through `width` and `height` (if any), and
the resource calls made. -/
structure DecodeResult where
  ret : Option (List F32)
  width : Option Int
  height : Option Int
  log : List Event

/-- The local variables of `jpeg_to_grayscale` that change in its loop. -/
structure DecodeState where
  cinfo : jpeg_decompress_struct
  buf : Option (List uint8_t)
  bitmap : Option (List F32)
  line : Int
  convert_fail : Bool

/-- The loop `while (cinfo.output_scanline < cinfo.output_height)` of
`jpeg_to_grayscale`.  The first argument bounds the number of iterations; the
result is `none` when the bound is exhausted or an iteration has undefined
behaviour. -/
def decode_loop (sz : Nat) (d : Decoder) : Nat → DecodeState → Option DecodeState
  | 0, st => if st.cinfo.output_scanline < st.cinfo.output_height then none else some st
  | fuel + 1, st =>
    if st.cinfo.output_scanline < st.cinfo.output_height then
      match to_float (jpeg_read_scanlines d st.cinfo st.buf).1
          [(jpeg_read_scanlines d st.cinfo st.buf).2] 1 st.bitmap
          (size_t_of_int sz st.line) with
      | none => none
      | some (false, bitmap1) =>
        some { cinfo := (jpeg_read_scanlines d st.cinfo st.buf).1
               buf := (jpeg_read_scanlines d st.cinfo st.buf).2
               bitmap := bitmap1
               line := st.line
               convert_fail := true }
      | some (true, bitmap1) =>
        decode_loop sz d fuel
          { cinfo := (jpeg_read_scanlines d st.cinfo st.buf).1
            buf := (jpeg_read_scanlines d st.cinfo st.buf).2
            bitmap := bitmap1
            line := wrap_int (st.line + 1)
            convert_fail := st.convert_fail }
    else some st

/-- The function `jpeg_to_grayscale`.  `codec jpeg jpeg_size` is what libjpeg
does with the input buffer; `none` is undefined behaviour.  The loop bound
`output_height` is exact, since `output_scanline` starts at 0 and every
iteration advances it by one. -/
def jpeg_to_grayscale (sz : Nat) (codec : List uint8_t → Nat → Decoder)
    (jpeg : List uint8_t) (jpeg_size : Nat) : Option DecodeResult :=
  if (codec jpeg jpeg_size).read_header ≠ JPEG_HEADER_OK then
    some { ret := none, width := none, height := none, log := [Event.create_decompress] }
  else
    let cinfo := jpeg_start_decompress (codec jpeg jpeg_size)
    let width := int_of_uint cinfo.output_width
    let height := int_of_uint cinfo.output_height
    match decode_loop sz (codec jpeg jpeg_size) cinfo.output_height
        { cinfo := cinfo
          buf := calloc sz (0 : uint8_t) (size_t_of_int sz width) 1
          bitmap := calloc sz (F32.zero false) (size_t_of_int sz (int_mul width height)) 4
          line := 0
          convert_fail := false } with
    | none => none
    | some st =>
      some { ret := if st.convert_fail then none else st.bitmap
             width := some width
             height := some height
             log := [Event.create_decompress, Event.start_decompress, Event.calloc_bitmap,
                     Event.calloc_buf, Event.finish_decompress, Event.destroy_decompress,
                     Event.free_buf] ++ (if st.convert_fail then [Event.free_bitmap] else []) }

/-! ## `grayscale_to_jpeg` -/

/-- What libjpeg does on the compression side, as far as `jpeg.c` can observe:
the sample precision that `jpeg_set_defaults` stores in the session
(`BITS_IN_JSAMPLE` of the library build) and the bytes that
`jpeg_finish_compress` leaves in the output buffer for an image of the given
width and height and the submitted scanlines. -/
structure Encoder where
  default_precision : Int
  compress : Nat → Nat → List (List uint8_t) → List uint8_t

/-- The local variables of `grayscale_to_jpeg` that change in its loop, and the
scanlines handed to `jpeg_write_scanlines` so far. -/
structure EncodeState where
  buf : Option (List uint8_t)
  written : List (List uint8_t)
  line : Int
  convert_fail : Bool

/-- What a call of `grayscale_to_jpeg` leaves behind: the returned pointer, the
value stored through `jpeg_size`, the scanlines submitted to the codec, and the
caller's bitmap. -/
structure EncodeResult where
  jpeg : Option (List uint8_t)
  jpeg_size : Nat
  scanlines : List (List uint8_t)
  bitmap : Option (List F32)

/-- The loop `for (line = 0; line < height; line++)` of `grayscale_to_jpeg`, with
a bound on the number of iterations.  `line < height` holds before `line++`, so
the increment cannot overflow. -/
def encode_loop (sz : Nat) (cinfo : jpeg_compress_struct) (bitmap : Option (List F32))
    (height : Int) : Nat → EncodeState → Option EncodeState
  | 0, st => if st.line < height then none else some st
  | fuel + 1, st =>
    if st.line < height then
      match from_float cinfo [st.buf] 1 bitmap (size_t_of_int sz st.line) with
      | none => none
      | some (false, bufs1) =>
        some { buf := bufs1.headD st.buf
               written := st.written
               line := st.line
               convert_fail := true }
      | some (true, bufs1) =>
        encode_loop sz cinfo bitmap height fuel
          { buf := bufs1.headD st.buf
            written := st.written ++ [(bufs1.headD st.buf).getD []]
            line := st.line + 1
            convert_fail := st.convert_fail }
    else some st

/-- The function `grayscale_to_jpeg`; `none` is undefined behaviour. -/
def grayscale_to_jpeg (sz : Nat) (enc : Encoder) (bitmap : Option (List F32))
    (width height : Int) : Option EncodeResult :=
  let cinfo : jpeg_compress_struct :=
    { image_width := uint_of_int width
      image_height := uint_of_int height
      input_components := 1
      data_precision := enc.default_precision }
  match encode_loop sz cinfo bitmap height height.toNat
      { buf := calloc sz (0 : uint8_t) (size_t_of_int sz width) 1
        written := []
        line := 0
        convert_fail := false } with
  | none => none
  | some st =>
    some { jpeg := if st.convert_fail then none
                   else some (enc.compress cinfo.image_width cinfo.image_height st.written)
           jpeg_size := (enc.compress cinfo.image_width cinfo.image_height st.written).length
           scanlines := st.written
           bitmap := bitmap }

/-! ## File input and output -/

/-- Value returned by `read` or `write` when the system is willing to transfer
`want` bytes (or fails with the negative value `want`) and at most `limit` bytes
can be transferred. -/
def sys_ret (want : Int) (limit : Nat) : Int :=
  if want < 0 then want else min want (limit : Int)

/-- Contents of a file after `data` has been written at offset `off`. -/
def sys_write (file : List uint8_t) (off : Nat) (data : List uint8_t) : List uint8_t :=
  file.take off ++ data ++ file.drop (off + data.length)

/-- The loop `for (i = 0, count = 0; i < jpeg_size; i += count)` of
`grayscale_to_jpeg_file`.  `wr k n` is the system's answer to the `k`-th call of
`write` when `n` bytes are offered; the file offset equals `i` throughout.  The
result is `none` when the iteration bound is exhausted. -/
def write_loop (wr : Nat → Nat → Int) (jpeg : List uint8_t) (jpeg_size : Nat) :
    Nat → Nat → Nat → List uint8_t → Option (Bool × List uint8_t)
  | 0, _, i, file => if i < jpeg_size then none else some (true, file)
  | fuel + 1, k, i, file =>
    if i < jpeg_size then
      if sys_ret (wr k (jpeg_size - i)) (jpeg_size - i) < 0 then some (false, file)
      else
        write_loop wr jpeg jpeg_size fuel (k + 1)
          (i + (sys_ret (wr k (jpeg_size - i)) (jpeg_size - i)).toNat)
          (sys_write file i
            ((jpeg.drop i).take (sys_ret (wr k (jpeg_size - i)) (jpeg_size - i)).toNat))
    else some (true, file)

/-- The function `grayscale_to_jpeg_file`.  `file` is the file at `path` before
the call (`none` when absent), `fd` the value returned by `open`, `wr` the
behaviour of `write`.  The result is the returned `bool` and the file at `path`
after the call.  `open` is called with `O_WRONLY | O_CREAT`: an absent file is
created empty, an existing file keeps its contents. -/
def grayscale_to_jpeg_file (sz : Nat) (enc : Encoder) (bitmap : Option (List F32))
    (width height : Int) (file : Option (List uint8_t)) (fd : Int)
    (wr : Nat → Nat → Int) (fuel : Nat) : Option (Bool × Option (List uint8_t)) :=
  match grayscale_to_jpeg sz enc bitmap width height with
  | none => none
  | some r =>
    match r.jpeg with
    | none => some (false, file)
    | some jpeg =>
      if fd < 0 then some (false, file)
      else
        match write_loop wr jpeg r.jpeg_size fuel 0 0 (file.getD []) with
        | none => none
        | some (ret, file1) => some (ret, some file1)

/-- What the operating system presents to `jpeg_file_to_grayscale`: the value
returned by `stat` and the size it reports, the value returned by `open`, the
bytes that can be read from the file, and the behaviour of `read` (`read k n` is
the answer to the `k`-th call when `n` bytes are requested). -/
structure ReadEnv where
  stat_ret : Int
  st_size : Nat
  fd : Int
  contents : List uint8_t
  read : Nat → Nat → Int

/-- The loop `for (i = 0, count = 0; i < jpeg_size; i += count)` of
`jpeg_file_to_grayscale`.  The last argument is the part `jpeg[0..i)` of the
buffer filled so far; `read` returns 0 at end of file.  The result is `none`
when the iteration bound is exhausted. -/
def read_loop (env : ReadEnv) (jpeg_size : Nat) :
    Nat → Nat → Nat → List uint8_t → Option (Bool × List uint8_t)
  | 0, _, i, buf => if i < jpeg_size then none else some (true, buf)
  | fuel + 1, k, i, buf =>
    if i < jpeg_size then
      if sys_ret (env.read k (jpeg_size - i)) (min (jpeg_size - i) (env.contents.length - i)) < 0
      then some (false, buf)
      else
        read_loop env jpeg_size fuel (k + 1)
          (i + (sys_ret (env.read k (jpeg_size - i))
            (min (jpeg_size - i) (env.contents.length - i))).toNat)
          (buf ++ (env.contents.drop i).take (sys_ret (env.read k (jpeg_size - i))
            (min (jpeg_size - i) (env.contents.length - i))).toNat)
    else some (true, buf)

/-- Lines 246 to 268 of `jpeg_file_to_grayscale`: the buffer and size that are
handed to `jpeg_to_grayscale` (`some none` when the function leaves through
`out` or returns early, `none` when the loop does not finish within the bound). -/
def read_file (env : ReadEnv) (fuel : Nat) : Option (Option (List uint8_t × Nat)) :=
  if env.stat_ret ≠ 0 then some none
  else if env.fd < 0 then some none
  else
    match read_loop env env.st_size fuel 0 0 [] with
    | none => none
    | some (false, _) => some none
    | some (true, buf) => some (some (buf, env.st_size))

/-- The function `jpeg_file_to_grayscale`. -/
def jpeg_file_to_grayscale (sz : Nat) (codec : List uint8_t → Nat → Decoder)
    (env : ReadEnv) (fuel : Nat) : Option DecodeResult :=
  match read_file env fuel with
  | none => none
  | some none => some { ret := none, width := none, height := none, log := [] }
  | some (some (jpeg, jpeg_size)) => jpeg_to_grayscale sz codec jpeg jpeg_size

/-- The environment of a regular file that nobody else modifies: `stat` fails
when the file is absent and reports the length otherwise. -/
def regular_file (file : Option (List uint8_t)) (read : Nat → Nat → Int) : ReadEnv :=
  { stat_ret := if file.isSome then 0 else -1
    st_size := (file.getD []).length
    fd := if file.isSome then 3 else -1
    contents := file.getD []
    read := read }

/-! ## Example inputs -/

/-- A decoder for a one-pixel image with the given sample. -/
def one_pixel (s : uint8_t) : Decoder :=
  { read_header := 1
    data_precision := 8
    output_components := 1
    output_width := 1
    output_height := 1
    scanline := fun _ => [s] }

/-- An encoder that emits the submitted samples one after the other. -/
def raw_encoder : Encoder :=
  { default_precision := 8
    compress := fun _ _ rows => rows.flatten }

/-- A file for which `stat` reports one byte while no byte can be read, with a
system that would transfer as much as requested. -/
def stalled_file : ReadEnv :=
  { stat_ret := 0
    st_size := 1
    fd := 3
    contents := []
    read := fun _ n => (n : Int) }

/-- A decoder reporting a 65535 by 65535 grayscale image. -/
def huge_image : Decoder :=
  { read_header := 1
    data_precision := 8
    output_components := 1
    output_width := 65535
    output_height := 65535
    scanline := fun _ => [] }

/-- A decoder reporting an all-black 46341 by 46341 grayscale image. -/
def overflow_image : Decoder :=
  { read_header := 1
    data_precision := 8
    output_components := 1
    output_width := 46341
    output_height := 46341
    scanline := fun _ => List.replicate 46341 0 }

/-! ## Facts about binary32 arithmetic -/

set_option maxRecDepth 100000 in
theorem to_float_factor_eq : to_float_factor = ⟨false, 119, 32897⟩ := by decide

set_option maxRecDepth 100000 in
theorem from_float_factor_eq : from_float_factor = ⟨false, 134, 8323072⟩ := by decide

set_option maxRecDepth 1000000 in
set_option maxHeartbeats 4000000 in
theorem sample_to_float_table : ∀ s : uint8_t,
    (sample_to_float s).sign = false ∧ (sample_to_float s).isFinite = true ∧
    (sample_to_float s).mag ≤ 2 ^ 149 ∧ ((sample_to_float s).mag < 2 ^ 149 ↔ s ≠ 255) := by
  simp only [sample_to_float, to_float_factor_eq]
  decide

set_option maxRecDepth 1000000 in
set_option maxHeartbeats 4000000 in
theorem sample_round_trip : ∀ s : uint8_t, float_to_sample (sample_to_float s) = s := by
  simp only [float_to_sample, sample_to_float, to_float_factor_eq, from_float_factor_eq]
  decide

set_option maxRecDepth 1000000 in
set_option maxHeartbeats 4000000 in
theorem sample_to_float_error : ∀ s : uint8_t,
    s.val * 2 ^ 149 ≤ 255 * (sample_to_float s).mag ∧
    (255 * (sample_to_float s).mag - s.val * 2 ^ 149) * 2 ^ 23 ≤ s.val * 2 ^ 149 := by
  simp only [sample_to_float, to_float_factor_eq]
  decide

set_option maxRecDepth 100000 in
theorem sample_to_float_zero : sample_to_float 0 = F32.zero false := by
  simp only [sample_to_float, to_float_factor_eq]
  decide

theorem F32.toRat_of_sign_false (x : F32) (h : x.sign = false) :
    x.toRat = (x.mag : ℚ) / 2 ^ 149 := by
  simp [F32.toRat, h]

/-- The `float` written for a sample `s` lies between `s/255` and
`s/255 * (1 + 2^-23)`. -/
theorem sample_to_float_close (s : uint8_t) :
    (s.val : ℚ) / 255 ≤ (sample_to_float s).toRat ∧
    (sample_to_float s).toRat ≤ (s.val : ℚ) / 255 * (1 + 1 / 2 ^ 23) := by
  obtain ⟨h1, h2⟩ := sample_to_float_error s
  obtain ⟨hs, _, _, _⟩ := sample_to_float_table s
  rw [F32.toRat_of_sign_false _ hs]
  have hpos : (0 : ℚ) < 2 ^ 149 := by positivity
  have q1 : ((s.val : ℚ)) * 2 ^ 149 ≤ 255 * ((sample_to_float s).mag : ℚ) := by
    exact_mod_cast h1
  have h3 : 255 * (sample_to_float s).mag * 2 ^ 23 ≤ s.val * 2 ^ 149 * 2 ^ 23 + s.val * 2 ^ 149 := by
    have := Nat.sub_mul (255 * (sample_to_float s).mag) (s.val * 2 ^ 149) (2 ^ 23)
    omega
  have q2 : 255 * ((sample_to_float s).mag : ℚ) * 2 ^ 23 ≤
      (s.val : ℚ) * 2 ^ 149 * 2 ^ 23 + (s.val : ℚ) * 2 ^ 149 := by
    exact_mod_cast h3
  constructor
  · rw [div_le_div_iff₀ (by norm_num) hpos]
    linarith
  · rw [div_le_iff₀ hpos]
    have e : (s.val : ℚ) / 255 * (1 + 1 / 2 ^ 23) * 2 ^ 149 =
        ((s.val : ℚ) * 2 ^ 149 * 2 ^ 23 + (s.val : ℚ) * 2 ^ 149) / (255 * 2 ^ 23) := by
      field_simp
      ring
    rw [e, le_div_iff₀ (by positivity)]
    linarith

/-! ## Binary32 rounding -/

namespace F32

end F32

namespace F32

theorem ulp_pos (n : Nat) : 0 < ulp n := Nat.pow_pos (by decide)

theorem rne_exact (p q : Nat) (hq : 0 < q) (h : q * ulp (p / q) ∣ p) : rne p q = p / q := by
  obtain ⟨c, hc⟩ := h
  have hd : 0 < q * ulp (p / q) := Nat.mul_pos hq (ulp_pos _)
  have hr : p % (q * ulp (p / q)) = 0 := Nat.mod_eq_zero_of_dvd ⟨c, hc⟩
  unfold rne
  simp only []
  have hpq : p / q = ulp (p / q) * c :=
    Nat.div_eq_of_eq_mul_right hq (by rw [← Nat.mul_assoc]; exact hc)
  rw [hr, if_pos (by omega), ← Nat.div_div_eq_div_mul]
  exact Nat.div_mul_cancel ⟨c, hpq⟩

end F32

namespace F32

end F32
namespace F32

end F32

theorem load_some {α : Type} (p : Option (List α)) (i : Nat) (v : α) (h : load p i = some v) :
    ∃ m, p = some m ∧ m[i]? = some v := by
  cases p with
  | none => simp [load] at h
  | some m => exact ⟨m, rfl, by simpa [load] using h⟩

theorem store_some {α : Type} (p : Option (List α)) (i : Nat) (v : α) (q : Option (List α))
    (h : store p i v = some q) :
    ∃ m, p = some m ∧ i < m.length ∧ q = some (m.set i v) := by
  cases p with
  | none => simp [store] at h
  | some m =>
    by_cases hi : i < m.length
    · refine ⟨m, rfl, hi, ?_⟩
      simp [store, hi] at h
      exact h.symm
    · simp [store, hi] at h

theorem to_float_row_some (r : List uint8_t) : ∀ (n j out : Nat) (bm : List F32)
    (b1 : Option (List F32)) (out1 : Nat),
    to_float_row (some r) n j out (some bm) = some (b1, out1) →
    out1 = out + n ∧ (n = 0 ∨ (j + n ≤ r.length ∧ out + n ≤ bm.length)) ∧
    ∃ bm1, b1 = some bm1 ∧ bm1.length = bm.length ∧
      (∀ i, i < n → bm1[out + i]? = (r[j + i]?).map sample_to_float) ∧
      (∀ i, i < out ∨ out + n ≤ i → bm1[i]? = bm[i]?) := by
  intro n
  induction n with
  | zero =>
    intro j out bm b1 out1 h
    simp [to_float_row] at h
    obtain ⟨h1, h2⟩ := h
    subst h1
    subst h2
    exact ⟨rfl, Or.inl rfl, bm, rfl, rfl, by intro i hi; omega, by intro i _; rfl⟩
  | succ n ih =>
    intro j out bm b1 out1 h
    unfold to_float_row at h
    cases hl : load (some r) j with
    | none => simp [hl] at h
    | some s =>
      rw [hl] at h
      simp only [] at h
      cases hs : store (some bm) out (sample_to_float s) with
      | none => simp [hs] at h
      | some q =>
        rw [hs] at h
        simp only [] at h
        obtain ⟨m, hm, hi, hq⟩ := store_some _ _ _ _ hs
        obtain ⟨m2, hm2, hv⟩ := load_some _ _ _ hl
        cases hm
        cases hm2
        subst hq
        obtain ⟨ho, hb, bm1, hb1, hlen, hin, hout⟩ := ih (j + 1) (out + 1) _ b1 out1 h
        have hjlt : j < r.length := by
          by_contra hc
          rw [List.getElem?_eq_none (by omega)] at hv
          exact Option.noConfusion hv
        refine ⟨by omega, Or.inr ?_, bm1, hb1, ?_, ?_, ?_⟩
        · rcases hb with h0 | ⟨h1, h2⟩
          · subst h0
            exact ⟨by omega, by omega⟩
          · rw [List.length_set] at h2
            exact ⟨by omega, by omega⟩
        · rw [hlen, List.length_set]
        · intro i hi2
          cases i with
          | zero =>
            have := hout out (Or.inl (by omega))
            rw [Nat.add_zero, Nat.add_zero, this, hv]
            simp [List.getElem?_set, hi]
          | succ i =>
            have := hin i (by omega)
            have e1 : out + (i + 1) = out + 1 + i := by omega
            have e2 : j + (i + 1) = j + 1 + i := by omega
            rw [e1, e2]
            exact this
        · intro i hi2
          have := hout i (by omega)
          rw [this, List.getElem?_set_ne (by omega)]

theorem to_float_row_ok (r : List uint8_t) : ∀ (n j out : Nat) (bm : List F32),
    j + n ≤ r.length → out + n ≤ bm.length →
    ∃ bm1, to_float_row (some r) n j out (some bm) = some (some bm1, out + n) := by
  intro n
  induction n with
  | zero =>
    intro j out bm _ _
    exact ⟨bm, by simp [to_float_row]⟩
  | succ n ih =>
    intro j out bm h1 h2
    have hj : j < r.length := by omega
    have ho : out < bm.length := by omega
    obtain ⟨bm1, h⟩ := ih (j + 1) (out + 1) (bm.set out (sample_to_float r[j]))
      (by omega) (by rw [List.length_set]; omega)
    refine ⟨bm1, ?_⟩
    unfold to_float_row
    simp only [load, store, List.getElem?_eq_getElem hj, ho, if_true]
    rw [h]
    congr 2
    omega

theorem to_float_row_null (row : Option (List uint8_t)) (n j out : Nat) :
    to_float_row row (n + 1) j out none = none := by
  unfold to_float_row
  cases load row j with
  | none => rfl
  | some s => simp [store]

theorem to_float_one (cinfo : jpeg_decompress_struct) (row : Option (List uint8_t))
    (bitmap : Option (List F32)) (line : Nat)
    (hp : cinfo.data_precision = 8) (hc : cinfo.output_components = 1) :
    to_float cinfo [row] 1 bitmap line =
      match to_float_row row cinfo.output_width 0 (line * cinfo.output_width) bitmap with
      | none => none
      | some (b1, _) => some (true, b1) := by
  unfold to_float
  rw [if_neg (by simp [hp, hc])]
  simp only [to_float_bufs, List.getElem?_cons_zero]
  cases to_float_row row cinfo.output_width 0 (line * cinfo.output_width) bitmap with
  | none => rfl
  | some p => rfl

theorem to_float_bad (cinfo : jpeg_decompress_struct) (bufs : List (Option (List uint8_t)))
    (nbufs : Nat) (bitmap : Option (List F32)) (line : Nat)
    (h : cinfo.data_precision ≠ 8 ∨ cinfo.output_components ≠ 1) :
    to_float cinfo bufs nbufs bitmap line = some (false, bitmap) := by
  unfold to_float
  rw [if_pos h]

theorem two_pow_32_le (sz : Nat) (h : 32 ≤ sz) : (4294967296 : Int) ≤ (2 : Int) ^ sz := by
  have h1 : (2 : Int) ^ 32 ≤ 2 ^ sz := pow_le_pow_right₀ (by norm_num) h
  have h2 : (2 : Int) ^ 32 = 4294967296 := by norm_num
  omega

theorem two_pow_32_le_nat (sz : Nat) (h : 32 ≤ sz) : 4294967296 ≤ 2 ^ sz := by
  have h1 : 2 ^ 32 ≤ 2 ^ sz := Nat.pow_le_pow_right (by decide) h
  have h2 : 2 ^ 32 = 4294967296 := by norm_num
  omega

theorem wrap_int_of_lt (x : Int) (h0 : 0 ≤ x) (h1 : x < 2147483648) : wrap_int x = x := by
  unfold wrap_int
  omega

theorem wrap_int_range (x : Int) : -2147483648 ≤ wrap_int x ∧ wrap_int x < 2147483648 := by
  unfold wrap_int
  omega

theorem size_t_of_int_nonneg (sz : Nat) (hsz : 32 ≤ sz) (n : Nat) (h : n < 2147483648) :
    size_t_of_int sz (n : Int) = n := by
  unfold size_t_of_int
  have h2 := two_pow_32_le sz hsz
  rw [Int.emod_eq_of_lt (by omega) (by omega)]
  simp

theorem size_t_of_int_neg (sz : Nat) (hsz : 32 ≤ sz) (x : Int) (h0 : -2147483648 ≤ x)
    (h1 : x < 0) : ((size_t_of_int sz x : Nat) : Int) = x + 2 ^ sz := by
  unfold size_t_of_int
  have h2 := two_pow_32_le sz hsz
  have h3 : x % 2 ^ sz = (x + 2 ^ sz) % 2 ^ sz := by simp
  rw [h3, Int.emod_eq_of_lt (by omega) (by omega)]
  omega

theorem size_t_of_int_lt (sz : Nat) (x : Int) : size_t_of_int sz x < 2 ^ sz := by
  unfold size_t_of_int
  have hp : (0 : Int) < 2 ^ sz := by positivity
  have h1 := Int.emod_lt_of_pos x hp
  have h0 := Int.emod_nonneg x (ne_of_gt hp)
  have : ((x % 2 ^ sz).toNat : Int) < ((2 ^ sz : Nat) : Int) := by
    rw [Int.toNat_of_nonneg h0]
    push_cast
    exact h1
  exact_mod_cast this

theorem calloc_some {α : Type} (sz : Nat) (z : α) (n size : Nat) (l : List α)
    (h : calloc sz z n size = some l) : n * size < 2 ^ sz ∧ l = List.replicate n z := by
  unfold calloc at h
  by_cases hc : n * size < 2 ^ sz
  · rw [if_pos hc] at h
    exact ⟨hc, (Option.some.inj h).symm⟩
  · rw [if_neg hc] at h
    exact Option.noConfusion h

theorem calloc_bitmap_some (sz : Nat) (hsz : 32 ≤ sz) (v : Int) (l : List F32)
    (hv0 : -2147483648 ≤ v) (hv1 : v < 2147483648)
    (h : calloc sz (F32.zero false) (size_t_of_int sz v) 4 = some l) :
    0 ≤ v ∧ (l.length : Int) = v := by
  obtain ⟨h1, h2⟩ := calloc_some _ _ _ _ _ h
  have hp := two_pow_32_le sz hsz
  have hlen : l.length = size_t_of_int sz v := by rw [h2, List.length_replicate]
  by_cases hneg : v < 0
  · exfalso
    have h3 := size_t_of_int_neg sz hsz v hv0 hneg
    have h4 : ((size_t_of_int sz v * 4 : Nat) : Int) < ((2 ^ sz : Nat) : Int) := by
      exact_mod_cast h1
    push_cast at h4
    omega
  · have hv : v = ((v.toNat : Nat) : Int) := by omega
    have h3 := size_t_of_int_nonneg sz hsz v.toNat (by omega)
    rw [← hv] at h3
    rw [hlen, h3]
    omega

theorem calloc_buf_some (sz : Nat) (x : Int) :
    ∃ b, calloc sz (0 : uint8_t) (size_t_of_int sz x) 1 = some b ∧
      b.length = size_t_of_int sz x := by
  refine ⟨List.replicate (size_t_of_int sz x) 0, ?_, by simp⟩
  unfold calloc
  rw [if_pos (by simpa using size_t_of_int_lt sz x)]

theorem overlay_length (row b : List uint8_t) : (overlay row b).length = b.length := by
  unfold overlay
  simp
  omega

theorem overlay_getElem (row b : List uint8_t) (i : Nat) (h : row.length ≤ b.length)
    (hi : i < row.length) : (overlay row b)[i]? = row[i]? := by
  unfold overlay
  rw [List.take_of_length_le h, List.getElem?_append_left hi]

theorem read_scanlines_fst (d : Decoder) (cinfo : jpeg_decompress_struct)
    (buf : Option (List uint8_t)) :
    (jpeg_read_scanlines d cinfo buf).1 =
      { cinfo with output_scanline := cinfo.output_scanline + 1 } := rfl

theorem read_scanlines_snd (d : Decoder) (cinfo : jpeg_decompress_struct)
    (b : List uint8_t) :
    (jpeg_read_scanlines d cinfo (some b)).2 =
      some (overlay (d.scanline cinfo.output_scanline) b) := rfl

theorem decode_loop_layout (sz : Nat) (d : Decoder) (W H L : Nat) (hsz : 32 ≤ sz)
    (hW : 0 < W) (hL : L < 2147483648)
    (hrows : ∀ k, k < H → (d.scanline k).length = W) :
    ∀ (fuel : Nat) (st st1 : DecodeState), decode_loop sz d fuel st = some st1 →
      st.cinfo.data_precision = 8 → st.cinfo.output_components = 1 →
      st.cinfo.output_width = W → st.cinfo.output_height = H →
      st.line = (st.cinfo.output_scanline : Int) → st.cinfo.output_scanline ≤ H →
      st.convert_fail = false → (∃ b, st.buf = some b) →
      ∀ bm, st.bitmap = some bm → bm.length = L → st.cinfo.output_scanline * W ≤ L →
      (∀ r c, r < st.cinfo.output_scanline → c < W →
        bm[r * W + c]? = ((d.scanline r)[c]?).map sample_to_float) →
      st1.convert_fail = false ∧ ∃ bm1, st1.bitmap = some bm1 ∧ bm1.length = L ∧ H * W ≤ L ∧
        (∀ r c, r < H → c < W →
          bm1[r * W + c]? = ((d.scanline r)[c]?).map sample_to_float) := by
  intro fuel
  induction fuel with
  | zero =>
    intro st st1 h hp hc hw hh hline hk hcf hbuf bm hbm hlen hkW hinv
    unfold decode_loop at h
    by_cases hlt : st.cinfo.output_scanline < st.cinfo.output_height
    · rw [if_pos hlt] at h
      exact Option.noConfusion h
    · rw [if_neg hlt] at h
      have hst : st = st1 := Option.some.inj h
      subst hst
      have hkH : st.cinfo.output_scanline = H := by omega
      rw [hkH] at hkW hinv
      exact ⟨hcf, bm, hbm, hlen, hkW, hinv⟩
  | succ fuel ih =>
    intro st st1 h hp hc hw hh hline hk hcf hbuf bm hbm hlen hkW hinv
    unfold decode_loop at h
    by_cases hlt : st.cinfo.output_scanline < st.cinfo.output_height
    · rw [if_pos hlt] at h
      obtain ⟨b, hb⟩ := hbuf
      have hk31 : st.cinfo.output_scanline < 2147483648 := by
        have : st.cinfo.output_scanline * 1 ≤ st.cinfo.output_scanline * W :=
          Nat.mul_le_mul_left _ hW
        omega
      have hsize : size_t_of_int sz st.line = st.cinfo.output_scanline := by
        rw [hline]
        exact size_t_of_int_nonneg sz hsz _ hk31
      rw [to_float_one _ _ _ _ (by rw [read_scanlines_fst]; exact hp)
        (by rw [read_scanlines_fst]; exact hc)] at h
      rw [hb, read_scanlines_snd, hbm, hsize] at h
      have hw2 : (jpeg_read_scanlines d st.cinfo (some b)).1.output_width = W := by
        rw [read_scanlines_fst]; exact hw
      rw [hw2] at h
      cases hrow : to_float_row (some (overlay (d.scanline st.cinfo.output_scanline) b)) W 0
          (st.cinfo.output_scanline * W) (some bm) with
      | none =>
        rw [hrow] at h
        exact Option.noConfusion h
      | some p =>
        obtain ⟨b1, out1⟩ := p
        rw [hrow] at h
        simp only [] at h
        obtain ⟨_, hbnd, bm1, hb1, hlen1, hin, hout⟩ := to_float_row_some _ _ _ _ _ _ _ hrow
        have hbnd2 : 0 + W ≤ (overlay (d.scanline st.cinfo.output_scanline) b).length ∧
            st.cinfo.output_scanline * W + W ≤ bm.length := by
          rcases hbnd with h0 | h1
          · omega
          · exact h1
        have hkH : st.cinfo.output_scanline < H := by omega
        have hrl := hrows _ hkH
        rw [overlay_length] at hbnd2
        have hnext : (st.cinfo.output_scanline + 1) * W ≤ L := by
          rw [Nat.add_mul, Nat.one_mul, ← hlen]
          exact hbnd2.2
        have hk31b : st.cinfo.output_scanline + 1 < 2147483648 := by
          have : (st.cinfo.output_scanline + 1) * 1 ≤ (st.cinfo.output_scanline + 1) * W :=
            Nat.mul_le_mul_left _ hW
          omega
        subst hb1
        refine ih _ st1 h hp hc hw hh ?_ ?_ hcf ⟨_, rfl⟩ bm1 rfl (by rw [hlen1, hlen]) hnext ?_
        · show wrap_int (st.line + 1) = ((st.cinfo.output_scanline + 1 : Nat) : Int)
          rw [hline, wrap_int_of_lt _ (by omega) (by omega)]
          push_cast
          rfl
        · show st.cinfo.output_scanline + 1 ≤ H
          omega
        · intro r c hr hcW
          show bm1[r * W + c]? = _
          by_cases hrk : r < st.cinfo.output_scanline
          · have hlt2 : r * W + c < st.cinfo.output_scanline * W := by
              have : (r + 1) * W ≤ st.cinfo.output_scanline * W :=
                Nat.mul_le_mul_right _ (by omega)
              rw [Nat.add_mul, Nat.one_mul] at this
              omega
            rw [hout _ (Or.inl hlt2)]
            exact hinv r c hrk hcW
          · have hrk2 : r = st.cinfo.output_scanline := by
              have : r < st.cinfo.output_scanline + 1 := hr
              omega
            subst hrk2
            rw [hin c hcW, Nat.zero_add, overlay_getElem _ _ _ (by omega) (by omega)]
    · rw [if_neg hlt] at h
      have hst : st = st1 := Option.some.inj h
      subst hst
      have hkH : st.cinfo.output_scanline = H := by omega
      rw [hkH] at hkW hinv
      exact ⟨hcf, bm, hbm, hlen, hkW, hinv⟩

theorem decode_loop_null (sz : Nat) (d : Decoder) (fuel : Nat) (st : DecodeState)
    (hp : st.cinfo.data_precision = 8) (hc : st.cinfo.output_components = 1)
    (hW : 0 < st.cinfo.output_width)
    (hk : st.cinfo.output_scanline < st.cinfo.output_height)
    (hbm : st.bitmap = none) :
    decode_loop sz d fuel st = none := by
  cases fuel with
  | zero =>
    unfold decode_loop
    rw [if_pos hk]
  | succ fuel =>
    unfold decode_loop
    rw [if_pos hk, to_float_one _ _ _ _ (by rw [read_scanlines_fst]; exact hp)
      (by rw [read_scanlines_fst]; exact hc), hbm]
    obtain ⟨n, hn⟩ := Nat.exists_eq_succ_of_ne_zero (Nat.pos_iff_ne_zero.mp hW)
    have hw2 : (jpeg_read_scanlines d st.cinfo st.buf).1.output_width = n + 1 := by
      rw [read_scanlines_fst]; exact hn
    rw [hw2, to_float_row_null]

theorem decode_loop_bad (sz : Nat) (d : Decoder) (fuel : Nat) (st : DecodeState)
    (hbad : st.cinfo.data_precision ≠ 8 ∨ st.cinfo.output_components ≠ 1)
    (hk : st.cinfo.output_scanline < st.cinfo.output_height) :
    ∃ st1, decode_loop sz d (fuel + 1) st = some st1 ∧ st1.convert_fail = true := by
  unfold decode_loop
  rw [if_pos hk, to_float_bad _ _ _ _ _ (by rw [read_scanlines_fst]; exact hbad)]
  exact ⟨_, rfl, rfl⟩

theorem decode_loop_good_some (sz : Nat) (d : Decoder) :
    ∀ (fuel : Nat) (st st1 : DecodeState), decode_loop sz d fuel st = some st1 →
      st.cinfo.data_precision = 8 → st.cinfo.output_components = 1 →
      st.convert_fail = false → (∃ b, st.buf = some b) → (∃ bm, st.bitmap = some bm) →
      st1.convert_fail = false ∧ ∃ bm1, st1.bitmap = some bm1 := by
  intro fuel
  induction fuel with
  | zero =>
    intro st st1 h hp hc hcf hbuf hbm
    unfold decode_loop at h
    by_cases hlt : st.cinfo.output_scanline < st.cinfo.output_height
    · rw [if_pos hlt] at h
      exact Option.noConfusion h
    · rw [if_neg hlt] at h
      have hst : st = st1 := Option.some.inj h
      subst hst
      exact ⟨hcf, hbm⟩
  | succ fuel ih =>
    intro st st1 h hp hc hcf hbuf hbm
    unfold decode_loop at h
    by_cases hlt : st.cinfo.output_scanline < st.cinfo.output_height
    · rw [if_pos hlt] at h
      obtain ⟨b, hb⟩ := hbuf
      obtain ⟨bm, hbm⟩ := hbm
      rw [to_float_one _ _ _ _ (by rw [read_scanlines_fst]; exact hp)
        (by rw [read_scanlines_fst]; exact hc)] at h
      rw [hb, read_scanlines_snd, hbm] at h
      cases hrow : to_float_row (some (overlay (d.scanline st.cinfo.output_scanline) b))
          (jpeg_read_scanlines d st.cinfo (some b)).1.output_width 0
          (size_t_of_int sz st.line * (jpeg_read_scanlines d st.cinfo (some b)).1.output_width)
          (some bm) with
      | none =>
        rw [hrow] at h
        exact Option.noConfusion h
      | some p =>
        obtain ⟨b1, out1⟩ := p
        rw [hrow] at h
        simp only [] at h
        obtain ⟨_, _, bm1, hb1, _, _, _⟩ := to_float_row_some _ _ _ _ _ _ _ hrow
        subst hb1
        exact ih _ st1 h hp hc hcf ⟨_, rfl⟩ ⟨bm1, rfl⟩
    · rw [if_neg hlt] at h
      have hst : st = st1 := Option.some.inj h
      subst hst
      exact ⟨hcf, hbm⟩

theorem decode_loop_exists (sz : Nat) (d : Decoder) (W H L : Nat) (hsz : 32 ≤ sz)
    (hL : L < 2147483648) (hHW : H * W ≤ L) :
    ∀ (fuel : Nat) (st : DecodeState),
      st.cinfo.data_precision = 8 → st.cinfo.output_components = 1 →
      st.cinfo.output_width = W → st.cinfo.output_height = H →
      H ≤ st.cinfo.output_scanline + fuel →
      (W = 0 ∨ st.line = (st.cinfo.output_scanline : Int)) →
      (∃ b, st.buf = some b ∧ W ≤ b.length) → (∃ bm, st.bitmap = some bm ∧ bm.length = L) →
      ∃ st1, decode_loop sz d fuel st = some st1 := by
  intro fuel
  induction fuel with
  | zero =>
    intro st hp hc hw hh hfuel hline hbuf hbm
    unfold decode_loop
    rw [if_neg (by omega)]
    exact ⟨st, rfl⟩
  | succ fuel ih =>
    intro st hp hc hw hh hfuel hline hbuf hbm
    unfold decode_loop
    by_cases hlt : st.cinfo.output_scanline < st.cinfo.output_height
    · rw [if_pos hlt]
      obtain ⟨b, hb, hbl⟩ := hbuf
      obtain ⟨bm, hbm, hlen⟩ := hbm
      rw [to_float_one _ _ _ _ (by rw [read_scanlines_fst]; exact hp)
        (by rw [read_scanlines_fst]; exact hc)]
      rw [hb, read_scanlines_snd, hbm]
      have hw2 : (jpeg_read_scanlines d st.cinfo (some b)).1.output_width = W := by
        rw [read_scanlines_fst]; exact hw
      rw [hw2]
      have hkH : st.cinfo.output_scanline + 1 ≤ H := by omega
      have hkW : (st.cinfo.output_scanline + 1) * W ≤ L :=
        le_trans (Nat.mul_le_mul_right _ hkH) hHW
      have hout : size_t_of_int sz st.line * W + W ≤ bm.length := by
        rcases hline with h0 | h1
        · rw [h0]
          omega
        · have hWpos_or : W = 0 ∨ 0 < W := Nat.eq_zero_or_pos W
          rcases hWpos_or with h0 | hWpos
          · rw [h0]
            omega
          · have hk31 : st.cinfo.output_scanline < 2147483648 := by
              have : (st.cinfo.output_scanline + 1) * 1 ≤ (st.cinfo.output_scanline + 1) * W :=
                Nat.mul_le_mul_left _ hWpos
              omega
            rw [h1, size_t_of_int_nonneg sz hsz _ hk31, hlen]
            rw [Nat.add_mul, Nat.one_mul] at hkW
            exact hkW
      obtain ⟨bm1, hrow⟩ := to_float_row_ok (overlay (d.scanline st.cinfo.output_scanline) b)
        W 0 (size_t_of_int sz st.line * W) bm (by rw [overlay_length]; omega) hout
      rw [hrow]
      simp only []
      obtain ⟨_, _, bm2, hb2, hlen2, _, _⟩ := to_float_row_some _ _ _ _ _ _ _ hrow
      refine ih _ hp hc hw hh ?_ ?_ ⟨_, rfl, ?_⟩ ⟨bm1, rfl, ?_⟩
      · show H ≤ st.cinfo.output_scanline + 1 + fuel
        omega
      · show W = 0 ∨ wrap_int (st.line + 1) = ((st.cinfo.output_scanline + 1 : Nat) : Int)
        rcases Nat.eq_zero_or_pos W with h0 | hWpos
        · exact Or.inl h0
        · right
          rcases hline with h0 | h1
          · omega
          · have hk31b : st.cinfo.output_scanline + 1 < 2147483648 := by
              have : (st.cinfo.output_scanline + 1) * 1 ≤
                  (st.cinfo.output_scanline + 1) * W := Nat.mul_le_mul_left _ hWpos
              omega
            rw [h1, wrap_int_of_lt _ (by omega) (by omega)]
            push_cast
            rfl
      · rw [overlay_length]
        exact hbl
      · have := Option.some.inj hb2
        rw [this, hlen2, hlen]
    · rw [if_neg hlt]
      exact ⟨st, rfl⟩

/-! ## The decoding loop -/

theorem start_decompress_fields (d : Decoder) :
    (jpeg_start_decompress d).data_precision = d.data_precision ∧
    (jpeg_start_decompress d).output_components = d.output_components ∧
    (jpeg_start_decompress d).output_scanline = 0 ∧
    (jpeg_start_decompress d).output_width < 4294967296 ∧
    (jpeg_start_decompress d).output_height < 4294967296 := by
  refine ⟨rfl, rfl, rfl, ?_, ?_⟩
  · exact Nat.mod_lt _ (by decide)
  · exact Nat.mod_lt _ (by decide)

theorem int_mul_range (a b : Int) :
    -2147483648 ≤ int_mul a b ∧ int_mul a b < 2147483648 := wrap_int_range _

theorem int_mul_small (W H : Nat) (h : W * H < 2147483648) (hH : 0 < H) :
    int_of_uint W = (W : Int) ∧ int_mul (int_of_uint W) (int_of_uint H) = ((W * H : Nat) : Int) := by
  rcases Nat.eq_zero_or_pos W with h0 | hW
  · subst h0
    have e0 : int_of_uint 0 = 0 := by decide
    refine ⟨e0, ?_⟩
    rw [e0]
    unfold int_mul
    rw [Int.zero_mul, Nat.zero_mul]
    decide
  · have hW31 : W < 2147483648 := by
      have : W * 1 ≤ W * H := Nat.mul_le_mul_left _ hH
      omega
    have hH31 : H < 2147483648 := by
      have : 1 * H ≤ W * H := Nat.mul_le_mul_right _ hW
      omega
    have hwi : int_of_uint W = (W : Int) := wrap_int_of_lt _ (by omega) (by omega)
    have hhi : int_of_uint H = (H : Int) := wrap_int_of_lt _ (by omega) (by omega)
    refine ⟨hwi, ?_⟩
    rw [hwi, hhi]
    unfold int_mul
    have hprod : ((W * H : Nat) : Int) < 2147483648 := by omega
    rw [wrap_int_of_lt _ (by positivity) (by push_cast at hprod ⊢; exact hprod)]
    push_cast
    rfl

theorem decode_start_bitmap_some (sz : Nat) (W H : Nat) (hsz : 32 ≤ sz)
    (hprod : W * H < 2147483648) (hfit : 4 * (W * H) < 2 ^ sz) (hH : 0 < H) :
    (∃ l, calloc sz (F32.zero false)
        (size_t_of_int sz (int_mul (int_of_uint W) (int_of_uint H))) 4 = some l ∧
        l.length = W * H) ∧
    (∃ b, calloc sz (0 : uint8_t) (size_t_of_int sz (int_of_uint W)) 1 = some b ∧
        b.length = W) := by
  obtain ⟨h1, h2⟩ := int_mul_small W H hprod hH
  have hW31 : W < 2147483648 := by
    have : W * 1 ≤ W * H := Nat.mul_le_mul_left _ hH
    omega
  constructor
  · rw [h2, size_t_of_int_nonneg sz hsz _ hprod]
    refine ⟨List.replicate (W * H) (F32.zero false), ?_, by simp⟩
    unfold calloc
    rw [if_pos (by omega)]
  · obtain ⟨b, hb, hbl⟩ := calloc_buf_some sz (int_of_uint W)
    refine ⟨b, hb, ?_⟩
    rw [hbl, h1, size_t_of_int_nonneg sz hsz _ hW31]

theorem decode_start_bitmap_zero (sz : Nat) (H : Nat) :
    calloc sz (F32.zero false)
      (size_t_of_int sz (int_mul (int_of_uint 0) (int_of_uint H))) 4 = some [] := by
  have e0 : int_of_uint 0 = 0 := by decide
  rw [e0]
  unfold int_mul
  rw [Int.zero_mul]
  have e1 : wrap_int 0 = 0 := by decide
  rw [e1]
  have e2 : size_t_of_int sz 0 = 0 := by simp [size_t_of_int]
  rw [e2]
  unfold calloc
  rw [if_pos (by simp)]
  rfl

/-! ## The encoding loop -/

theorem read_loop_stalled (fuel k : Nat) (buf : List uint8_t) :
    read_loop stalled_file 1 fuel k 0 buf = none := by
  induction fuel generalizing k buf with
  | zero => simp [read_loop]
  | succ n ih =>
    have h := ih (k + 1) (buf ++ [])
    simpa [read_loop, stalled_file, sys_ret] using h

/-! ## Exactness of the truncation after multiplying by 255 -/

namespace F32

end F32

namespace F32

end F32

namespace F32

end F32

namespace F32

end F32

theorem to_float_row_range (row : Option (List uint8_t)) : ∀ (n j out : Nat)
    (bitmap b1 : Option (List F32)) (out1 : Nat),
    to_float_row row n j out bitmap = some (b1, out1) →
    (∀ bm, bitmap = some bm → ∀ x, x ∈ bm → ∃ s, x = sample_to_float s) →
    ∀ bm, b1 = some bm → ∀ x, x ∈ bm → ∃ s, x = sample_to_float s := by
  intro n
  induction n with
  | zero =>
    intro j out bitmap b1 out1 h hI
    simp [to_float_row] at h
    rw [← h.1]
    exact hI
  | succ n ih =>
    intro j out bitmap b1 out1 h hI
    unfold to_float_row at h
    cases hl : load row j with
    | none => simp [hl] at h
    | some s =>
      rw [hl] at h
      simp only [] at h
      cases hs : store bitmap out (sample_to_float s) with
      | none => simp [hs] at h
      | some q =>
        rw [hs] at h
        simp only [] at h
        obtain ⟨m, hm, _, hq⟩ := store_some _ _ _ _ hs
        refine ih _ _ _ _ _ h ?_
        intro bm hbm x hx
        rw [hq] at hbm
        have hbm2 := Option.some.inj hbm
        rw [← hbm2] at hx
        rcases List.mem_or_eq_of_mem_set hx with h1 | h1
        · exact hI m hm x h1
        · exact ⟨s, h1⟩

theorem to_float_bufs_range (width : Nat) (bufs : List (Option (List uint8_t))) :
    ∀ (n i out : Nat) (bitmap b1 : Option (List F32)) (out1 : Nat),
    to_float_bufs width bufs n i out bitmap = some (b1, out1) →
    (∀ bm, bitmap = some bm → ∀ x, x ∈ bm → ∃ s, x = sample_to_float s) →
    ∀ bm, b1 = some bm → ∀ x, x ∈ bm → ∃ s, x = sample_to_float s := by
  intro n
  induction n with
  | zero =>
    intro i out bitmap b1 out1 h hI
    simp [to_float_bufs] at h
    rw [← h.1]
    exact hI
  | succ n ih =>
    intro i out bitmap b1 out1 h hI
    unfold to_float_bufs at h
    cases hb : bufs[i]? with
    | none => simp [hb] at h
    | some row =>
      rw [hb] at h
      simp only [] at h
      cases hr : to_float_row row width 0 out bitmap with
      | none => simp [hr] at h
      | some p =>
        obtain ⟨b2, out2⟩ := p
        rw [hr] at h
        simp only [] at h
        exact ih _ _ _ _ _ h (to_float_row_range row _ _ _ _ _ _ hr hI)

theorem to_float_range (cinfo : jpeg_decompress_struct) (bufs : List (Option (List uint8_t)))
    (nbufs : Nat) (bitmap b1 : Option (List F32)) (line : Nat) (ok : Bool)
    (h : to_float cinfo bufs nbufs bitmap line = some (ok, b1))
    (hI : ∀ bm, bitmap = some bm → ∀ x, x ∈ bm → ∃ s, x = sample_to_float s) :
    ∀ bm, b1 = some bm → ∀ x, x ∈ bm → ∃ s, x = sample_to_float s := by
  unfold to_float at h
  by_cases hbad : cinfo.data_precision ≠ 8 ∨ cinfo.output_components ≠ 1
  · rw [if_pos hbad] at h
    have := Option.some.inj h
    rw [← (Prod.mk.inj this).2]
    exact hI
  · rw [if_neg hbad] at h
    cases hr : to_float_bufs cinfo.output_width bufs nbufs 0 (line * cinfo.output_width)
        bitmap with
    | none => simp [hr] at h
    | some p =>
      obtain ⟨b2, out2⟩ := p
      rw [hr] at h
      simp only [] at h
      have := Option.some.inj h
      rw [← (Prod.mk.inj this).2]
      exact to_float_bufs_range _ _ _ _ _ _ _ _ hr hI

theorem decode_loop_range (sz : Nat) (d : Decoder) :
    ∀ (fuel : Nat) (st st1 : DecodeState), decode_loop sz d fuel st = some st1 →
      (∀ bm, st.bitmap = some bm → ∀ x, x ∈ bm → ∃ s, x = sample_to_float s) →
      ∀ bm, st1.bitmap = some bm → ∀ x, x ∈ bm → ∃ s, x = sample_to_float s := by
  intro fuel
  induction fuel with
  | zero =>
    intro st st1 h hI
    unfold decode_loop at h
    by_cases hlt : st.cinfo.output_scanline < st.cinfo.output_height
    · rw [if_pos hlt] at h
      exact Option.noConfusion h
    · rw [if_neg hlt] at h
      rw [← Option.some.inj h]
      exact hI
  | succ fuel ih =>
    intro st st1 h hI
    unfold decode_loop at h
    by_cases hlt : st.cinfo.output_scanline < st.cinfo.output_height
    · rw [if_pos hlt] at h
      cases hr : to_float (jpeg_read_scanlines d st.cinfo st.buf).1
          [(jpeg_read_scanlines d st.cinfo st.buf).2] 1 st.bitmap
          (size_t_of_int sz st.line) with
      | none => simp [hr] at h
      | some p =>
        obtain ⟨ok, b2⟩ := p
        have hI2 := to_float_range _ _ _ _ _ _ _ hr hI
        rw [hr] at h
        cases ok with
        | false =>
          simp only [] at h
          rw [← Option.some.inj h]
          exact hI2
        | true =>
          simp only [] at h
          exact ih _ _ h hI2
    · rw [if_neg hlt] at h
      rw [← Option.some.inj h]
      exact hI

theorem decode_range (sz : Nat) (codec : List uint8_t → Nat → Decoder) (jpeg : List uint8_t)
    (jpeg_size : Nat) (r : DecodeResult) (bm : List F32)
    (hres : jpeg_to_grayscale sz codec jpeg jpeg_size = some r) (hret : r.ret = some bm) :
    ∀ x, x ∈ bm → ∃ s, x = sample_to_float s := by
  unfold jpeg_to_grayscale at hres
  by_cases hhead : (codec jpeg jpeg_size).read_header ≠ JPEG_HEADER_OK
  · rw [if_pos hhead] at hres
    rw [← Option.some.inj hres] at hret
    exact Option.noConfusion hret
  · rw [if_neg hhead] at hres
    simp only [] at hres
    generalize hst0 : ({ cinfo := jpeg_start_decompress (codec jpeg jpeg_size)
                         buf := calloc sz (0 : uint8_t) (size_t_of_int sz (int_of_uint
                           (jpeg_start_decompress (codec jpeg jpeg_size)).output_width)) 1
                         bitmap := calloc sz (F32.zero false) (size_t_of_int sz (int_mul
                           (int_of_uint (jpeg_start_decompress (codec jpeg jpeg_size)).output_width)
                           (int_of_uint
                             (jpeg_start_decompress (codec jpeg jpeg_size)).output_height))) 4
                         line := 0
                         convert_fail := false } : DecodeState) = st0 at hres
    cases hloop : decode_loop sz (codec jpeg jpeg_size)
        (jpeg_start_decompress (codec jpeg jpeg_size)).output_height st0 with
    | none =>
      rw [hloop] at hres
      exact Option.noConfusion hres
    | some st1 =>
      rw [hloop] at hres
      simp only [] at hres
      rw [← Option.some.inj hres] at hret
      have hI0 : ∀ l, st0.bitmap = some l → ∀ x, x ∈ l → ∃ s, x = sample_to_float s := by
        intro l hl x hx
        rw [← hst0] at hl
        obtain ⟨_, hrep⟩ := calloc_some _ _ _ _ _ hl
        rw [hrep] at hx
        exact ⟨0, by rw [List.eq_of_mem_replicate hx, sample_to_float_zero]⟩
      have hI1 := decode_loop_range sz _ _ st0 st1 hloop hI0
      by_cases hcf : st1.convert_fail = true
      · rw [if_pos hcf] at hret
        exact Option.noConfusion hret
      · rw [if_neg hcf] at hret
        exact hI1 bm hret

theorem decode_alloc_failure (sz : Nat) (codec : List uint8_t → Nat → Decoder)
    (jpeg : List uint8_t) (jpeg_size : Nat)
    (hhead : (codec jpeg jpeg_size).read_header = JPEG_HEADER_OK)
    (hp : (codec jpeg jpeg_size).data_precision = 8)
    (hc : (codec jpeg jpeg_size).output_components = 1)
    (hW : 0 < (jpeg_start_decompress (codec jpeg jpeg_size)).output_width)
    (hH : 0 < (jpeg_start_decompress (codec jpeg jpeg_size)).output_height)
    (hcal : calloc sz (F32.zero false) (size_t_of_int sz (int_mul
      (int_of_uint (jpeg_start_decompress (codec jpeg jpeg_size)).output_width)
      (int_of_uint (jpeg_start_decompress (codec jpeg jpeg_size)).output_height))) 4 = none) :
    jpeg_to_grayscale sz codec jpeg jpeg_size = none := by
  unfold jpeg_to_grayscale
  rw [if_neg (by rw [hhead]; exact fun h => h rfl)]
  simp only []
  rw [hcal, decode_loop_null sz _ _ _ hp hc hW hH rfl]

theorem decode_releases (sz : Nat) (codec : List uint8_t → Nat → Decoder)
    (jpeg : List uint8_t) (jpeg_size : Nat) (r : DecodeResult)
    (hhead : (codec jpeg jpeg_size).read_header = JPEG_HEADER_OK)
    (hres : jpeg_to_grayscale sz codec jpeg jpeg_size = some r) :
    Event.destroy_decompress ∈ r.log ∧ Event.free_buf ∈ r.log := by
  unfold jpeg_to_grayscale at hres
  rw [if_neg (by rw [hhead]; exact fun h => h rfl)] at hres
  simp only [] at hres
  generalize decode_loop sz (codec jpeg jpeg_size) _ _ = res at hres
  cases res with
  | none => exact Option.noConfusion hres
  | some st1 =>
    simp only [] at hres
    rw [← Option.some.inj hres]
    simp

theorem one_pixel_decode :
    jpeg_to_grayscale 32 (fun _ _ => one_pixel 3) [] 0 =
      some { ret := some [sample_to_float 3]
             width := some 1
             height := some 1
             log := [Event.create_decompress, Event.start_decompress, Event.calloc_bitmap,
                     Event.calloc_buf, Event.finish_decompress, Event.destroy_decompress,
                     Event.free_buf] } := by
  rfl

theorem white_pixel_decode :
    jpeg_to_grayscale 32 (fun _ _ => one_pixel 255) [] 0 =
      some { ret := some [sample_to_float 255]
             width := some 1
             height := some 1
             log := [Event.create_decompress, Event.start_decompress, Event.calloc_bitmap,
                     Event.calloc_buf, Event.finish_decompress, Event.destroy_decompress,
                     Event.free_buf] } := by
  rfl

/-- When the reported height is positive, a decode that runs to its end returns
`NULL` exactly for a rejected header or an unsupported format; with a supported
format it returns a bitmap as long as the entry count fits in `int` and the
byte count in `size_t`. -/
theorem decode_null_iff (sz : Nat) (codec : List uint8_t → Nat → Decoder)
    (jpeg : List uint8_t) (jpeg_size : Nat) (hsz : 32 ≤ sz)
    (hH : 0 < (jpeg_start_decompress (codec jpeg jpeg_size)).output_height) :
    ((∃ r, jpeg_to_grayscale sz codec jpeg jpeg_size = some r ∧ r.ret = none) ↔
      ((codec jpeg jpeg_size).read_header ≠ JPEG_HEADER_OK ∨
        (codec jpeg jpeg_size).data_precision ≠ 8 ∨
        (codec jpeg jpeg_size).output_components ≠ 1)) ∧
    (¬ ((codec jpeg jpeg_size).read_header ≠ JPEG_HEADER_OK ∨
        (codec jpeg jpeg_size).data_precision ≠ 8 ∨
        (codec jpeg jpeg_size).output_components ≠ 1) →
      (jpeg_start_decompress (codec jpeg jpeg_size)).output_width *
        (jpeg_start_decompress (codec jpeg jpeg_size)).output_height < 2147483648 →
      4 * ((jpeg_start_decompress (codec jpeg jpeg_size)).output_width *
        (jpeg_start_decompress (codec jpeg jpeg_size)).output_height) < 2 ^ sz →
      ∃ r bm, jpeg_to_grayscale sz codec jpeg jpeg_size = some r ∧ r.ret = some bm) := by
  obtain ⟨hf1, hf2, hf3, _, _⟩ := start_decompress_fields (codec jpeg jpeg_size)
  unfold jpeg_to_grayscale
  simp only []
  generalize jpeg_start_decompress (codec jpeg jpeg_size) = c0 at *
  generalize codec jpeg jpeg_size = d at *
  obtain ⟨W, hw⟩ : ∃ W, c0.output_width = W := ⟨_, rfl⟩
  obtain ⟨H, hh⟩ : ∃ H, c0.output_height = H := ⟨_, rfl⟩
  rw [hw, hh]
  rw [hh] at hH
  obtain ⟨b, hb, _⟩ := calloc_buf_some sz (int_of_uint W)
  rw [hb]
  by_cases hhead : d.read_header ≠ JPEG_HEADER_OK
  · rw [if_pos hhead]
    refine ⟨⟨fun _ => Or.inl hhead, fun _ => ⟨_, rfl, rfl⟩⟩, ?_⟩
    intro hn
    exact absurd (Or.inl hhead) hn
  · rw [if_neg hhead]
    by_cases hfmt : d.data_precision ≠ 8 ∨ d.output_components ≠ 1
    · obtain ⟨n, hn⟩ := Nat.exists_eq_succ_of_ne_zero (Nat.pos_iff_ne_zero.mp hH)
      subst hn
      obtain ⟨st1, hst1, hcf⟩ := decode_loop_bad sz d n
        { cinfo := c0
          buf := some b
          bitmap := calloc sz (F32.zero false)
            (size_t_of_int sz (int_mul (int_of_uint W) (int_of_uint (n + 1)))) 4
          line := 0
          convert_fail := false }
        (by
          show c0.data_precision ≠ 8 ∨ c0.output_components ≠ 1
          rw [hf1, hf2]; exact hfmt)
        (by
          show c0.output_scanline < c0.output_height
          rw [hf3, hh]; exact hH)
      rw [hst1]
      refine ⟨⟨fun _ => Or.inr hfmt, fun _ => ⟨_, rfl, ?_⟩⟩, ?_⟩
      · show (if st1.convert_fail = true then none else st1.bitmap) = none
        rw [hcf, if_pos rfl]
      · intro hn2
        exact absurd (Or.inr hfmt) hn2
    · have hp : d.data_precision = 8 := by
        by_contra hc
        exact hfmt (Or.inl hc)
      have hc : d.output_components = 1 := by
        by_contra hc
        exact hfmt (Or.inr hc)
      have hgood : ∀ (l : List F32) (st1 : DecodeState),
          decode_loop sz d H
              { cinfo := c0
                buf := some b
                bitmap := some l
                line := 0
                convert_fail := false } = some st1 →
          st1.convert_fail = false ∧ ∃ bm1, st1.bitmap = some bm1 := by
        intro l st1 hloop
        exact decode_loop_good_some sz d H _ st1 hloop (by rw [hf1]; exact hp)
          (by rw [hf2]; exact hc) rfl ⟨b, rfl⟩ ⟨l, rfl⟩
      constructor
      · constructor
        · rintro ⟨r, hres, hret⟩
          exfalso
          cases hcal : calloc sz (F32.zero false)
              (size_t_of_int sz (int_mul (int_of_uint W) (int_of_uint H))) 4 with
          | none =>
            rcases Nat.eq_zero_or_pos W with h0 | hWpos
            · subst h0
              rw [decode_start_bitmap_zero] at hcal
              exact Option.noConfusion hcal
            · rw [hcal] at hres
              rw [decode_loop_null sz d H
                { cinfo := c0, buf := some b, bitmap := none, line := 0, convert_fail := false }
                (by rw [hf1]; exact hp) (by rw [hf2]; exact hc)
                (by show 0 < c0.output_width; rw [hw]; exact hWpos)
                (by show c0.output_scanline < c0.output_height; rw [hf3, hh]; exact hH)
                rfl] at hres
              exact Option.noConfusion hres
          | some l =>
            rw [hcal] at hres
            cases hloop : decode_loop sz d H
                { cinfo := c0, buf := some b, bitmap := some l, line := 0,
                  convert_fail := false } with
            | none =>
              rw [hloop] at hres
              exact Option.noConfusion hres
            | some st1 =>
              rw [hloop] at hres
              obtain ⟨hcf, bm1, hbm1⟩ := hgood l st1 hloop
              have hr := Option.some.inj hres
              subst hr
              rw [hcf, hbm1] at hret
              simp at hret
        · intro hbad
          rcases hbad with h1 | h2
          · exact absurd h1 hhead
          · exact absurd h2 hfmt
      · intro _ hprod hfit
        obtain ⟨⟨l, hl, hlen⟩, ⟨b2, hb2, hb2len⟩⟩ :=
          decode_start_bitmap_some sz W H hsz hprod hfit hH
        rw [hl]
        have hbb : b2 = b := Option.some.inj (hb2.symm.trans hb)
        subst hbb
        obtain ⟨st1, hloop⟩ := decode_loop_exists sz d W H (W * H) hsz hprod
          (by rw [Nat.mul_comm]) H
          { cinfo := c0, buf := some b2, bitmap := some l, line := 0, convert_fail := false }
          (by rw [hf1]; exact hp) (by rw [hf2]; exact hc) hw hh
          (by show H ≤ c0.output_scanline + H; omega)
          (Or.inr (by show (0 : Int) = (c0.output_scanline : Int); rw [hf3]; rfl))
          ⟨b2, rfl, by omega⟩ ⟨l, rfl, hlen⟩
        rw [hloop]
        obtain ⟨hcf, bm1, hbm1⟩ := hgood l st1 hloop
        refine ⟨_, bm1, rfl, ?_⟩
        show (if st1.convert_fail = true then none else st1.bitmap) = some bm1
        rw [hcf, hbm1]
        simp

theorem decode_null_iff_one_pixel :
    ∃ r bm, jpeg_to_grayscale 32 (fun _ _ => one_pixel 3) [] 0 = some r ∧ r.ret = some bm :=
  (decode_null_iff 32 (fun _ _ => one_pixel 3) [] 0 (by decide) (by decide)).2
    (by decide) (by decide) (by decide)

/-! ## Claims -/

/-- C1 as stated fails: decoding a one-pixel image whose sample is 3 yields a
bitmap whose entry is neither the number 3/255 nor the `float` nearest to it
(the quotient `3.0f/255.0f`); it is the product `3.0f * (1.0f/255.0f)`, one unit
in the last place above. -/
theorem C1_entry_differs_from_quotient :
    ∃ x, (jpeg_to_grayscale 32 (fun _ _ => one_pixel 3) [] 0).map (fun r => r.ret) =
        some (some [x]) ∧
      x = F32.mk false 120 4243650 ∧
      F32.div (F32.ofNat 3) (F32.ofNat 255) = F32.mk false 120 4243649 ∧
      x.toRat ≠ 3 / 255 := by
  refine ⟨F32.mk false 120 4243650, ?_, rfl, by decide, ?_⟩
  · simp only [jpeg_to_grayscale, decode_loop, to_float, to_float_bufs, to_float_row,
      sample_to_float, to_float_factor_eq]
    decide
  · rw [F32.toRat_of_sign_false _ rfl]
    have hm : (F32.mk false 120 4243650).mag = 12632258 * 2 ^ 119 := by decide
    rw [hm]
    norm_num

/-- C1, amended: in every successful decode in which the codec reports width
`W > 0` and height `H > 0`, precision 8 and one output component, and delivers
scanlines of `W` samples, the returned bitmap has exactly `W * H` entries, entry
`k * W + c` is the binary32 product `((float) s) * (1.0f/255.0f)` for the
sample `s` in column `c` of the `k`-th delivered scanline, a number between
`s/255` and `s/255 * (1 + 2^-23)`, and the reported width and height are `W`
and `H`. -/
theorem C1_decode_layout (sz : Nat) (codec : List uint8_t → Nat → Decoder)
    (jpeg : List uint8_t) (jpeg_size W H : Nat) (r : DecodeResult) (bm : List F32)
    (hsz : 32 ≤ sz)
    (hres : jpeg_to_grayscale sz codec jpeg jpeg_size = some r) (hret : r.ret = some bm)
    (hW : 0 < W) (hH : 0 < H)
    (hw : (jpeg_start_decompress (codec jpeg jpeg_size)).output_width = W)
    (hh : (jpeg_start_decompress (codec jpeg jpeg_size)).output_height = H)
    (hp : (codec jpeg jpeg_size).data_precision = 8)
    (hc : (codec jpeg jpeg_size).output_components = 1)
    (hrows : ∀ k, k < H → ((codec jpeg jpeg_size).scanline k).length = W) :
    bm.length = W * H ∧
    (∀ k c, k < H → c < W → ∃ s, ((codec jpeg jpeg_size).scanline k)[c]? = some s ∧
      bm[k * W + c]? = some (sample_to_float s) ∧
      (s.val : ℚ) / 255 ≤ (sample_to_float s).toRat ∧
      (sample_to_float s).toRat ≤ (s.val : ℚ) / 255 * (1 + 1 / 2 ^ 23)) ∧
    r.width = some (W : Int) ∧ r.height = some (H : Int) := by
  obtain ⟨hf1, hf2, hf3, hf4, hf5⟩ := start_decompress_fields (codec jpeg jpeg_size)
  unfold jpeg_to_grayscale at hres
  by_cases hhead : (codec jpeg jpeg_size).read_header ≠ JPEG_HEADER_OK
  · rw [if_pos hhead] at hres
    have := Option.some.inj hres
    subst this
    exact Option.noConfusion hret
  · rw [if_neg hhead] at hres
    simp only [] at hres
    rw [hw, hh] at hres
    generalize jpeg_start_decompress (codec jpeg jpeg_size) = c0 at *
    have hv := int_mul_range (int_of_uint W) (int_of_uint H)
    obtain ⟨v, hvdef⟩ : ∃ v, int_mul (int_of_uint W) (int_of_uint H) = v := ⟨_, rfl⟩
    rw [hvdef] at hres hv
    have hvd : Unit → int_mul (int_of_uint W) (int_of_uint H) = v := fun _ => hvdef
    clear hvdef
    cases hcal : calloc sz (F32.zero false) (size_t_of_int sz v) 4 with
    | none =>
      rw [hcal] at hres
      have hnull := decode_loop_null sz (codec jpeg jpeg_size) H
        { cinfo := c0
          buf := calloc sz (0 : uint8_t) (size_t_of_int sz (int_of_uint W)) 1
          bitmap := none
          line := 0
          convert_fail := false }
        (by rw [hf1]; exact hp) (by rw [hf2]; exact hc)
        (by rw [hw]; exact hW) (by rw [hf3, hh]; exact hH) rfl
      rw [hnull] at hres
      exact Option.noConfusion hres
    | some l =>
      rw [hcal] at hres
      obtain ⟨hv0, hlen⟩ := calloc_bitmap_some sz hsz _ l hv.1 hv.2 hcal
      obtain ⟨b, hb, _⟩ := calloc_buf_some sz (int_of_uint W)
      rw [hb] at hres
      obtain ⟨st0, hst0⟩ : ∃ st0 : DecodeState, st0 =
          { cinfo := c0
            buf := some b
            bitmap := some l
            line := 0
            convert_fail := false } := ⟨_, rfl⟩
      rw [← hst0] at hres
      have e1 : st0.cinfo = c0 := by rw [hst0]
      have e2 : st0.buf = some b := by rw [hst0]
      have e3 : st0.bitmap = some l := by rw [hst0]
      have e4 : st0.line = 0 := by rw [hst0]
      have e5 : st0.convert_fail = false := by rw [hst0]
      cases hloop : decode_loop sz (codec jpeg jpeg_size) H st0 with
      | none =>
        rw [hloop] at hres
        exact Option.noConfusion hres
      | some st1 =>
        rw [hloop] at hres
        simp only [] at hres
        have hlt : l.length < 2147483648 := by
          have h2 := hv.2
          rw [← hlen] at h2
          exact_mod_cast h2
        have g1 : st0.cinfo.data_precision = 8 := by rw [e1, hf1]; exact hp
        have g2 : st0.cinfo.output_components = 1 := by rw [e1, hf2]; exact hc
        have g3 : st0.cinfo.output_width = W := by rw [e1]; exact hw
        have g4 : st0.cinfo.output_height = H := by rw [e1]; exact hh
        have g5 : st0.cinfo.output_scanline = 0 := by rw [e1]; exact hf3
        have g6 : st0.line = (st0.cinfo.output_scanline : Int) := by rw [e4, g5]; rfl
        have g7 : st0.cinfo.output_scanline ≤ H := by rw [g5]; omega
        have g8 : st0.cinfo.output_scanline * W ≤ l.length := by rw [g5]; omega
        have g9 : ∀ r c, r < st0.cinfo.output_scanline → c < W →
            l[r * W + c]? = (((codec jpeg jpeg_size).scanline r)[c]?).map sample_to_float := by
          intro r c hr
          rw [g5] at hr
          omega
        obtain ⟨hcf, bm1, hbm1, hlen1, hHW, hent⟩ :=
          decode_loop_layout sz (codec jpeg jpeg_size) W H l.length hsz hW hlt hrows H st0 st1
            hloop g1 g2 g3 g4 g6 g7 e5 ⟨b, e2⟩ l e3 rfl g8 g9
        have hr := Option.some.inj hres
        subst hr
        rw [hcf, hbm1] at hret
        simp only [Bool.false_eq_true, if_false] at hret
        have hbm := Option.some.inj hret
        subst hbm
        have hW31 : W < 2147483648 := by
          have : 1 * W ≤ H * W := Nat.mul_le_mul_right _ hH
          omega
        have hH31 : H < 2147483648 := by
          have : H * 1 ≤ H * W := Nat.mul_le_mul_left _ hW
          omega
        have hwi : int_of_uint W = (W : Int) := wrap_int_of_lt _ (by omega) (by omega)
        have hhi : int_of_uint H = (H : Int) := wrap_int_of_lt _ (by omega) (by omega)
        have hprod : ((H * W : Nat) : Int) < 2147483648 := by omega
        have hmul : v = ((W * H : Nat) : Int) := by
          rw [← hvd (), hwi, hhi]
          unfold int_mul
          rw [wrap_int_of_lt _ (by positivity)
            (by rw [Nat.mul_comm] at hprod; push_cast at hprod ⊢; exact hprod)]
          push_cast
          rfl
        refine ⟨?_, ?_, ?_, ?_⟩
        · rw [hmul] at hlen
          rw [hlen1]
          exact_mod_cast hlen
        · intro k c hk hcW
          have hsl : c < ((codec jpeg jpeg_size).scanline k).length := by
            rw [hrows k hk]; exact hcW
          refine ⟨((codec jpeg jpeg_size).scanline k)[c], List.getElem?_eq_getElem hsl, ?_,
            (sample_to_float_close _).1, (sample_to_float_close _).2⟩
          rw [hent k c hk hcW, List.getElem?_eq_getElem hsl]
          rfl
        · show some (int_of_uint W) = some (W : Int)
          rw [hwi]
        · show some (int_of_uint H) = some (H : Int)
          rw [hhi]

/-- C1, amended, at a one-pixel image with sample 3. -/
theorem C1_decode_layout_witness :
    ([sample_to_float 3] : List F32).length = 1 * 1 ∧
    (∀ k c, k < 1 → c < 1 → ∃ s, ((one_pixel 3).scanline k)[c]? = some s ∧
      ([sample_to_float 3] : List F32)[k * 1 + c]? = some (sample_to_float s) ∧
      (s.val : ℚ) / 255 ≤ (sample_to_float s).toRat ∧
      (sample_to_float s).toRat ≤ (s.val : ℚ) / 255 * (1 + 1 / 2 ^ 23)) ∧
    (some (1 : Int)) = some ((1 : Nat) : Int) ∧ (some (1 : Int)) = some ((1 : Nat) : Int) :=
  C1_decode_layout 32 (fun _ _ => one_pixel 3) [] 0 1 1 _ [sample_to_float 3] (by decide)
    one_pixel_decode rfl (by decide) (by decide) rfl rfl rfl rfl (fun _ _ => rfl)

/-- C3: a header that is accepted and announces an 8-bit grayscale image of
46341 by 46341 pixels meets every condition under which the claim promises a
bitmap, yet `jpeg_to_grayscale` yields no result at all: the `int` product
`(*width) * (*height)` is -2147479015 instead of 2147488281, `calloc` returns
`NULL` for the resulting count with a 64-bit and with a 32-bit `size_t`, and
the first store of `to_float` goes through the null pointer, so the call ends
neither with a bitmap nor with `NULL`. -/
theorem C3_no_bitmap_at_46341 :
    overflow_image.read_header = JPEG_HEADER_OK ∧
    overflow_image.data_precision = 8 ∧
    overflow_image.output_components = 1 ∧
    0 < (jpeg_start_decompress overflow_image).output_height ∧
    (∀ k, (overflow_image.scanline k).length = overflow_image.output_width) ∧
    int_mul (int_of_uint 46341) (int_of_uint 46341) = -2147479015 ∧
    calloc 64 (F32.zero false)
      (size_t_of_int 64 (int_mul (int_of_uint 46341) (int_of_uint 46341))) 4 = none ∧
    calloc 32 (F32.zero false)
      (size_t_of_int 32 (int_mul (int_of_uint 46341) (int_of_uint 46341))) 4 = none ∧
    jpeg_to_grayscale 64 (fun _ _ => overflow_image) [] 0 = none ∧
    jpeg_to_grayscale 32 (fun _ _ => overflow_image) [] 0 = none ∧
    (¬ ∃ r, jpeg_to_grayscale 64 (fun _ _ => overflow_image) [] 0 = some r) ∧
    (¬ ∃ r, jpeg_to_grayscale 32 (fun _ _ => overflow_image) [] 0 = some r) := by
  have h64 : jpeg_to_grayscale 64 (fun _ _ => overflow_image) [] 0 = none :=
    decode_alloc_failure 64 _ [] 0 rfl rfl rfl (by decide) (by decide) (by decide)
  have h32 : jpeg_to_grayscale 32 (fun _ _ => overflow_image) [] 0 = none :=
    decode_alloc_failure 32 _ [] 0 rfl rfl rfl (by decide) (by decide) (by decide)
  refine ⟨rfl, rfl, rfl, by decide, ?_, by decide, by decide, by decide, h64, h32, ?_, ?_⟩
  · intro k
    exact List.length_replicate 46341 _
  · rintro ⟨r, hr⟩
    rw [h64] at hr
    exact Option.noConfusion hr
  · rintro ⟨r, hr⟩
    rw [h32] at hr
    exact Option.noConfusion hr

/-- C4: `to_float` and `from_float` return `false` exactly when the session's
precision is not 8 or its component count is not 1, and when they return
`false` the bitmap (for `to_float`) and the sample rows (for `from_float`) are
what they were before the call. -/
theorem C4_normalizer_failure (dinfo : jpeg_decompress_struct) (cinfo : jpeg_compress_struct)
    (bufs : List (Option (List uint8_t))) (nbufs : Nat) (bitmap : Option (List F32))
    (line : Nat) :
    ((∃ b, to_float dinfo bufs nbufs bitmap line = some (false, b)) ↔
        (dinfo.data_precision ≠ 8 ∨ dinfo.output_components ≠ 1)) ∧
    (∀ b, to_float dinfo bufs nbufs bitmap line = some (false, b) → b = bitmap) ∧
    ((∃ r, from_float cinfo bufs nbufs bitmap line = some (false, r)) ↔
        (cinfo.data_precision ≠ 8 ∨ cinfo.input_components ≠ 1)) ∧
    (∀ r, from_float cinfo bufs nbufs bitmap line = some (false, r) → r = bufs) := by
  refine ⟨?_, ?_, ?_, ?_⟩
  · unfold to_float
    by_cases h : dinfo.data_precision ≠ 8 ∨ dinfo.output_components ≠ 1
    · simp [h]
    · rw [if_neg h]
      cases to_float_bufs dinfo.output_width bufs nbufs 0 (line * dinfo.output_width) bitmap with
      | none => simp [h]
      | some p => simp [h]
  · intro b
    unfold to_float
    by_cases h : dinfo.data_precision ≠ 8 ∨ dinfo.output_components ≠ 1
    · rw [if_pos h]
      intro hb
      simp at hb
      exact hb.symm
    · rw [if_neg h]
      cases to_float_bufs dinfo.output_width bufs nbufs 0 (line * dinfo.output_width) bitmap with
      | none => simp
      | some p => simp
  · unfold from_float
    by_cases h : cinfo.data_precision ≠ 8 ∨ cinfo.input_components ≠ 1
    · simp [h]
    · rw [if_neg h]
      cases from_float_bufs cinfo.image_width bitmap nbufs 0 (line * cinfo.image_width) bufs with
      | none => simp [h]
      | some p => simp [h]
  · intro r
    unfold from_float
    by_cases h : cinfo.data_precision ≠ 8 ∨ cinfo.input_components ≠ 1
    · rw [if_pos h]
      intro hr
      simp at hr
      exact hr.symm
    · rw [if_neg h]
      cases from_float_bufs cinfo.image_width bitmap nbufs 0 (line * cinfo.image_width) bufs with
      | none => simp
      | some p => simp

/-- C5 as stated fails: for the sample 255, `to_float` writes a `float` whose
value is exactly 1, which is not less than 1; decoding a one-pixel image
with that sample returns a bitmap holding the value 1. -/
theorem C5_sample_255_is_one :
    (sample_to_float 255).toRat = 1 ∧ ¬ (sample_to_float 255).toRat < 1 ∧
    (jpeg_to_grayscale 32 (fun _ _ => one_pixel 255) [] 0).map (fun r => r.ret) =
      some (some [sample_to_float 255]) := by
  have h := sample_to_float_table 255
  have hm : (sample_to_float 255).mag = 2 ^ 149 := by
    have h3 := h.2.2.2
    have h2 := h.2.2.1
    simp at h3
    omega
  have h1 : (sample_to_float 255).toRat = 1 := by
    rw [F32.toRat_of_sign_false _ h.1, hm]
    norm_num
  refine ⟨h1, ?_, ?_⟩
  · rw [h1]
    exact lt_irrefl _
  · rw [white_pixel_decode]
    rfl

/-- C5, amended: for every 8-bit sample `s`, the `float` that `to_float` writes
is finite and lies in the closed interval from 0 to 1; it is less than 1
exactly when `s` is not 255; hence every value of a decoded bitmap lies in
the closed interval from 0 to 1. -/
theorem C5_sample_in_closed_unit_interval :
    (∀ s : uint8_t, (sample_to_float s).isFinite = true ∧ 0 ≤ (sample_to_float s).toRat ∧
      (sample_to_float s).toRat ≤ 1 ∧ ((sample_to_float s).toRat < 1 ↔ s ≠ 255)) ∧
    (∀ (sz : Nat) (codec : List uint8_t → Nat → Decoder) (jpeg : List uint8_t)
      (jpeg_size : Nat) (r : DecodeResult) (bm : List F32),
      jpeg_to_grayscale sz codec jpeg jpeg_size = some r → r.ret = some bm →
      ∀ x, x ∈ bm → x.isFinite = true ∧ 0 ≤ x.toRat ∧ x.toRat ≤ 1) := by
  have key : ∀ s : uint8_t, (sample_to_float s).isFinite = true ∧
      0 ≤ (sample_to_float s).toRat ∧ (sample_to_float s).toRat ≤ 1 ∧
      ((sample_to_float s).toRat < 1 ↔ s ≠ 255) := by
    intro s
    obtain ⟨hs, hf, hle, hlt⟩ := sample_to_float_table s
    rw [F32.toRat_of_sign_false _ hs]
    have hpos : (0 : ℚ) < 2 ^ 149 := by positivity
    refine ⟨hf, div_nonneg (Nat.cast_nonneg _) hpos.le, ?_, ?_⟩
    · rw [div_le_one hpos]
      have h2 : ((sample_to_float s).mag : ℚ) ≤ ((2 ^ 149 : ℕ) : ℚ) := Nat.cast_le.mpr hle
      rw [Nat.cast_pow, Nat.cast_ofNat] at h2
      exact h2
    · rw [div_lt_one hpos, ← hlt]
      have h2 : ((sample_to_float s).mag : ℚ) < ((2 ^ 149 : ℕ) : ℚ) ↔
          (sample_to_float s).mag < 2 ^ 149 := Nat.cast_lt
      rw [Nat.cast_pow, Nat.cast_ofNat] at h2
      exact h2
  refine ⟨key, ?_⟩
  intro sz codec jpeg jpeg_size r bm hres hret x hx
  obtain ⟨s, hs⟩ := decode_range sz codec jpeg jpeg_size r bm hres hret x hx
  rw [hs]
  exact ⟨(key s).1, (key s).2.1, (key s).2.2.1⟩

/-- C5, amended, at the decoded bitmap of a one-pixel image with sample 3. -/
theorem C5_sample_in_closed_unit_interval_witness :
    ∀ x, x ∈ [sample_to_float 3] → x.isFinite = true ∧ 0 ≤ x.toRat ∧ x.toRat ≤ 1 :=
  C5_sample_in_closed_unit_interval.2 32 (fun _ _ => one_pixel 3) [] 0 _ _
    one_pixel_decode rfl

/-- C6: converting an 8-bit sample to `float` with `to_float` and back with
`from_float` yields the sample or the sample less one, and yields 255 for the
sample 255.  (The result is in fact the sample itself in every case.) -/
theorem C6_round_trip (s : uint8_t) :
    (float_to_sample (sample_to_float s) = s ∨
      (float_to_sample (sample_to_float s)).val + 1 = s.val) ∧
    float_to_sample (sample_to_float 255) = 255 :=
  ⟨Or.inl (sample_round_trip s), sample_round_trip 255⟩

/-- C7: a one-pixel bitmap is encoded to the single byte 127 and written with
success over an existing file of three bytes; the file then holds that byte
followed by the last two old bytes, and the read that follows hands three
bytes to the decoder, not the one byte that the encoder produced. -/
theorem C7_stale_bytes_after_rewrite :
    (grayscale_to_jpeg 32 raw_encoder (some [⟨false, 126, 0⟩]) 1 1).map
        (fun r => (r.jpeg, r.jpeg_size)) = some (some [127], 1) ∧
    grayscale_to_jpeg_file 32 raw_encoder (some [⟨false, 126, 0⟩]) 1 1 (some [7, 8, 9]) 3
        (fun _ n => (n : Int)) 4 = some (true, some [127, 8, 9]) ∧
    read_file (regular_file (some [127, 8, 9]) (fun _ n => (n : Int))) 4 =
        some (some ([127, 8, 9], 3)) := by
  simp only [from_float_factor_eq, grayscale_to_jpeg_file, grayscale_to_jpeg, encode_loop,
    from_float, from_float_bufs, from_float_row, float_to_sample]
  decide

/-- C8: whenever `jpeg_read_header` does not return `JPEG_HEADER_OK` (here the
value 0), `jpeg_to_grayscale` returns `NULL` having made no resource call
after `jpeg_create_decompress`: `jpeg_destroy_decompress` is never called on the
session it created. -/
theorem C8_header_reject_leaks_session (sz : Nat) (d : Decoder) (jpeg : List uint8_t)
    (jpeg_size : Nat) :
    ∃ r, jpeg_to_grayscale sz (fun _ _ => { d with read_header := 0 }) jpeg jpeg_size = some r ∧
      r.ret = none ∧ r.log = [Event.create_decompress] ∧
      Event.destroy_decompress ∉ r.log := by
  refine ⟨{ ret := none, width := none, height := none, log := [Event.create_decompress] },
    ?_, rfl, rfl, by decide⟩
  simp [jpeg_to_grayscale, JPEG_HEADER_OK]

/-- C9: when `stat` reports a size of one byte and `read` returns 0 (end of
file), the read loop of `jpeg_file_to_grayscale` makes no progress: whatever
the bound on the number of iterations, it has not ended, neither with a full
buffer nor with a failure. -/
theorem C9_read_loop_never_ends (sz : Nat) (codec : List uint8_t → Nat → Decoder) (fuel : Nat) :
    sys_ret (stalled_file.read 0 1) (min 1 (stalled_file.contents.length - 0)) = 0 ∧
    read_loop stalled_file stalled_file.st_size fuel 0 0 [] = none ∧
    read_file stalled_file fuel = none ∧
    jpeg_file_to_grayscale sz codec stalled_file fuel = none := by
  have h := read_loop_stalled fuel 0 []
  refine ⟨by decide, h, ?_, ?_⟩
  · simp [read_file, stalled_file] at h ⊢
    simp [h]
  · simp [jpeg_file_to_grayscale, read_file, stalled_file] at h ⊢
    simp [h]

/-- C10: at the dimensions 65535 by 65535, which a JPEG header can carry, the
`int` product `(*width) * (*height)` is -131071 rather than 4294836225; as a
64-bit `size_t` it is 18446744073709420545, and as a 32-bit `size_t` the byte
count of the request overflows, so in neither case does `calloc` yield a
block of 4294836225 entries: it returns `NULL`, and the first store of
`to_float` goes through that null pointer. -/
theorem C10_bitmap_count_overflows :
    int_mul (int_of_uint 65535) (int_of_uint 65535) = -131071 ∧
    size_t_of_int 64 (int_mul (int_of_uint 65535) (int_of_uint 65535)) =
      18446744073709420545 ∧
    size_t_of_int 32 (int_mul (int_of_uint 65535) (int_of_uint 65535)) = 4294836225 ∧
    calloc 64 (F32.zero false)
      (size_t_of_int 64 (int_mul (int_of_uint 65535) (int_of_uint 65535))) 4 = none ∧
    calloc 32 (F32.zero false)
      (size_t_of_int 32 (int_mul (int_of_uint 65535) (int_of_uint 65535))) 4 = none ∧
    jpeg_to_grayscale 64 (fun _ _ => huge_image) [] 0 = none ∧
    jpeg_to_grayscale 32 (fun _ _ => huge_image) [] 0 = none := by
  refine ⟨by decide, by decide, by decide, by decide, by decide, ?_, ?_⟩
  · exact decode_alloc_failure 64 _ [] 0 rfl rfl rfl (by decide) (by decide) (by decide)
  · exact decode_alloc_failure 32 _ [] 0 rfl rfl rfl (by decide) (by decide) (by decide)
